import Mathlib

/-!
# Atlas log parser and LightStep span writer

A shallow embedding of `lib/processor/atlas.go`, `lib/processor/atlas_types.go`
and `lib/output/writer/lightstep.go`, followed by theorems about it.

Conventions of the embedding:

* a Go `string` / `[]byte` is the list of its bytes, one `Char` per byte (`Str`);
* a Go function that can return an error or stop with a run-time panic returns a
  `Res`: `ok v`, `err` (a non-nil `error`), or `panic` (index out of range, nil
  dereference, failed type assertion);
* a Go `map[string]interface{}` is an association list with distinct keys
  (`GoMap`), read with `mapGet` and written with `mapSet`;
* the standard library (`strings`, `strconv`) is modelled function by function;
  `encoding/json`, `time` and the tracing client are parameters;
* a benthos message is the list of its parts, and the order in which Go iterates
  over a map is a parameter `range`, a permutation of the entries.
-/

namespace Atlas

/-! ## Strings -/

/-- A Go string, as the list of its bytes. -/
abbrev Str := List Char

/-- Result of a Go call: a value, a returned `error`, or a run-time panic. -/
inductive Res (α : Type) where
  | ok (a : α)
  | err
  | panic
  deriving Repr, DecidableEq

/-- Indexing `xs[i]` of a Go slice: panics when `i` is out of range. -/
def index {α : Type} (xs : List α) (i : Nat) : Res α :=
  match xs[i]? with
  | some x => Res.ok x
  | none => Res.panic

/-- Prepend a byte to the first piece of a list of pieces. -/
def consHead (c : Char) : List Str → List Str
  | [] => [[c]]
  | h :: r => (c :: h) :: r

/-- Worker of `Split`: `skip` counts the bytes of a matched separator that are
still to be passed over. -/
def splitAux (sep : Str) : Nat → Str → List Str
  | _, [] => [[]]
  | skip + 1, _ :: t => splitAux sep skip t
  | 0, c :: t =>
    if sep.isPrefixOf (c :: t) then [] :: splitAux sep (sep.length - 1) t
    else consHead c (splitAux sep 0 t)

/-- Go `strings.Split(s, sep)` for a non-empty separator: `s` cut at every
(leftmost, non-overlapping) occurrence of `sep`. -/
def Split (s sep : Str) : List Str := splitAux sep 0 s

/-- Worker of `SplitN`: `k` is the number of cuts still allowed. -/
def splitNAux (sep : Str) : Nat → Nat → Str → List Str
  | _, _, [] => [[]]
  | 0, _, c :: t => [c :: t]
  | k + 1, skip + 1, _ :: t => splitNAux sep (k + 1) skip t
  | k + 1, 0, c :: t =>
    if sep.isPrefixOf (c :: t) then [] :: splitNAux sep k (sep.length - 1) t
    else consHead c (splitNAux sep (k + 1) 0 t)

/-- Go `strings.SplitN(s, sep, n)` for a non-empty separator and `n ≥ 0`: at most
`n` pieces, the last one being the unsplit remainder. -/
def SplitN (s sep : Str) (n : Nat) : List Str :=
  if n = 0 then [] else splitNAux sep (n - 1) 0 s

/-- Go `strings.HasPrefix(s, prefix)`. -/
def HasPrefix (s pre : Str) : Bool := pre.isPrefixOf s

/-- Worker of `FieldsFunc`: `cur` holds the bytes of the field being read, last
byte first. -/
def fieldsAux (f : Char → Bool) : Str → Str → List Str
  | cur, [] => if cur = [] then [] else [cur.reverse]
  | cur, c :: t =>
    if f c then
      (if cur = [] then fieldsAux f [] t else cur.reverse :: fieldsAux f [] t)
    else fieldsAux f (c :: cur) t

/-- Go `strings.FieldsFunc(s, f)`: the maximal runs of bytes not satisfying `f`. -/
def FieldsFunc (s : Str) (f : Char → Bool) : List Str := fieldsAux f [] s

/-- Worker of `Replace`. -/
def replaceAux (old new : Str) : Nat → Str → Str
  | _, [] => []
  | skip + 1, _ :: t => replaceAux old new skip t
  | 0, c :: t =>
    if old.isPrefixOf (c :: t) then new ++ replaceAux old new (old.length - 1) t
    else c :: replaceAux old new 0 t

/-- Go `strings.Replace(s, old, new, -1)` for a non-empty `old`. -/
def Replace (s old new : Str) : Str := replaceAux old new 0 s

/-- Value of a run of decimal digits, most significant first, added to `acc`;
`none` when a byte is not a digit. -/
def parseDigits : Str → Nat → Option Nat
  | [], acc => some acc
  | c :: t, acc =>
    if '0' ≤ c ∧ c ≤ '9' then parseDigits t (acc * 10 + (c.toNat - 48)) else none

/-- The integer written by `s`: an optional sign, then one or more decimal
digits. -/
def decimal (s : Str) : Option Int :=
  let body := if s.head? = some '-' ∨ s.head? = some '+' then s.drop 1 else s
  if body = [] then none
  else
    match parseDigits body 0 with
    | none => none
    | some n => some (if s.head? = some '-' then -(n : Int) else (n : Int))

/-- Go `strconv.Atoi` on a platform with a 64-bit `int`: the text must be a
`decimal` and its value must lie in the range of `int`. -/
def Atoi (s : Str) : Option Int :=
  match decimal s with
  | none => none
  | some v => if -(2 : Int) ^ 63 ≤ v ∧ v ≤ (2 : Int) ^ 63 - 1 then some v else none

/-- The text of `fmt.Sprintf("%d", i)` for a non-negative `i`. -/
def itoa (i : Nat) : Str := Nat.toDigits 10 i

/-! ## Values, maps and records -/

/-- A Go `interface{}` holding decoded data: what `encoding/json` produces
(`nil`, `bool`, `string`, `float64`, slice, map) or the `int` that `uhmarshal`
stores. -/
inductive Value where
  | null
  | bool (b : Bool)
  | str (s : Str)
  | int (i : Int)
  | float (x : Rat)
  | arr (xs : List Value)
  | obj (m : List (Str × Value))

/-- A Go `map[string]interface{}`: an association list with distinct keys. -/
abbrev GoMap := List (Str × Value)

/-- Map read `m[k]`, with `none` for an absent key. -/
def mapGet {V : Type} : List (Str × V) → Str → Option V
  | [], _ => none
  | (k', v) :: t, k => if k' = k then some v else mapGet t k

/-- Map write `m[k] = v`. -/
def mapSet {V : Type} : List (Str × V) → Str → V → List (Str × V)
  | [], k, v => [(k, v)]
  | (k', v') :: t, k, v => if k' = k then (k, v) :: t else (k', v') :: mapSet t k v

/-- Sequencing of Go calls: an error or a panic ends the computation. -/
def Res.bind {α β : Type} : Res α → (α → Res β) → Res β
  | Res.ok a, f => f a
  | Res.err, _ => Res.err
  | Res.panic, _ => Res.panic

/-- An instant (`time.Time`), as a number of nanoseconds. -/
abbrev Time := Int

/-- Go struct `AtlasClientHeader`. -/
structure AtlasClientHeader where
  Message : Int
  IP : Str
  Port : Int
  Socket : Int
  deriving DecidableEq

/-- Go struct `AtlasReqResp`; `Client` is a pointer. -/
structure AtlasReqResp where
  LogTime : Str
  Client : Option AtlasClientHeader
  LengthHex : Str
  Message : GoMap

/-- Go struct `AtlasError`. -/
structure AtlasError where
  LogTime : Str
  LengthHex : Str
  Message : GoMap

/-- Go struct `AtlasOpUse`. -/
structure AtlasOpUse where
  LogTime : Str
  VaxTime : Str
  Host : Str
  PortSet : Int
  Usage : Str
  UsedCur : Int
  QueCur : Int
  UsedPeak : Int
  QuePeak : Int
  UsedTot : Int
  QueTot : Int
  Min : Int
  Max : Int
  Ideal : Int
  deriving DecidableEq

/-- Go struct `AtlasHostLoad`. -/
structure AtlasHostLoad where
  LogTime : Str
  Vax : Str
  Load : Int
  VaxTime : Str
  Flags : Int
  deriving DecidableEq

/-- Go struct `AtlasCommand`: a string and five pointers, `none` for nil. -/
structure AtlasCommand where
  Unparsed : Str := []
  Request : Option AtlasReqResp := none
  Response : Option AtlasReqResp := none
  Error : Option AtlasError := none
  Opuse : Option AtlasOpUse := none
  Hostload : Option AtlasHostLoad := none

/-- Go struct `AtlasLog`. -/
structure AtlasLog where
  CommandType : Str := []
  Hostname : Str := []
  Timestamp : Time := 0
  Command : AtlasCommand := {}

/-- The calls into `encoding/json`, an external library. -/
structure Json where
  /-- Decoding with `json.Unmarshal` into a struct whose only field is the string
  `Data`: the value of that field, or `none` when an error is returned. -/
  unmarshalWrapper : Str → Option Str
  /-- Decoding with `json.Unmarshal` into an empty `interface{}`. -/
  unmarshalValue : Str → Option Value
  /-- Decoding with `json.Unmarshal` into an `AtlasLog`. -/
  unmarshalLog : Str → Option AtlasLog

/-! ## The processor (`atlas.go`) -/

/-- Loop of `uhmarshal` over the comma-separated pieces. -/
def uhmarshalAux : List Str → GoMap → Res GoMap
  | [], output => Res.ok output
  | p :: ps, output =>
    match Split p ['='] with
    | [k, v] =>
      match Atoi v with
      | some n => uhmarshalAux ps (mapSet output k (Value.int n))
      | none => uhmarshalAux ps (mapSet output k (Value.str v))
    | _ => Res.err

/-- Go `uhmarshal`: the map stored through `v`, or the error. -/
def uhmarshal (m : Str) : Res GoMap :=
  uhmarshalAux (FieldsFunc m (fun c => c == ',')) []

/-- The two `json.Unmarshal` calls of `unwrap` on the text `s`: first the
wrapper `{"data":"s"}` is decoded, then its `Data` string; `none` when either
call returns an error. -/
def jsonPath (J : Json) (s : Str) : Option Value :=
  match J.unmarshalWrapper ("\x7b\"data\":\"".toList ++ s ++ "\"\x7d".toList) with
  | some data => J.unmarshalValue data
  | none => none

/-- The two rewrites `unwrap` applies to its input before decoding it. -/
def rewrite (msgJSON : Str) : Str :=
  Replace (Replace msgJSON "CITY-S".toList "CITY_S".toList) "LINE#".toList "LINENUM".toList

/-- Go `unwrap`. -/
def unwrap (J : Json) (msgJSON : Str) : Res Value :=
  match jsonPath J (rewrite msgJSON) with
  | some m => Res.ok m
  | none => (uhmarshal (rewrite msgJSON)).bind fun output => Res.ok (Value.obj output)

/-- Go `strconv.Atoi` with its error as a `Res`. -/
def atoi (s : Str) : Res Int :=
  match Atoi s with
  | some n => Res.ok n
  | none => Res.err

/-- Go `newClientHeader`. -/
def newClientHeader (header : Str) : Res AtlasClientHeader :=
  let parts := Split header ['/']
  if parts.length ≠ 4 then Res.err
  else
    (index parts 0).bind fun parts0 =>
    (atoi parts0).bind fun message =>
    (index parts 1).bind fun ip =>
    (index parts 2).bind fun parts2 =>
    (atoi parts2).bind fun port =>
    (index parts 3).bind fun parts3 =>
    (atoi parts3).bind fun socket =>
    Res.ok { Message := message, IP := ip, Port := port, Socket := socket }

/-- Key under which `parseResponse` stores fragment number `i`. -/
def cmdKey (i : Nat) : Str :=
  if i = 0 then "header".toList else "command".toList ++ itoa i

/-- Loop of `parseResponse` over `parts[1:]` when the first fragment is not JSON. -/
def parseResponseLoop : List Str → Nat → GoMap → Res GoMap
  | [], _, message => Res.ok message
  | msgJSON :: rest, i, message =>
    (uhmarshal msgJSON).bind fun unwrapped =>
    parseResponseLoop rest (i + 1) (mapSet message (cmdKey i) (Value.obj unwrapped))

/-- Type assertion `v.(map[string]interface{})`. -/
def asMap : Value → Res GoMap
  | Value.obj m => Res.ok m
  | _ => Res.panic

/-- Go `Atlas.parseResponse`. -/
def parseResponse (J : Json) (msg : Str) : Res AtlasLog :=
  let parts := Split msg ['|']
  if parts.length < 2 then Res.err
  else
    (index parts 0).bind fun parts0 =>
    let responseHeader := Split parts0 [',']
    (index responseHeader 2).bind fun h2 =>
    (newClientHeader h2).bind fun c =>
    (index responseHeader 1).bind fun h1 =>
    (index responseHeader 3).bind fun h3 =>
    (index responseHeader 0).bind fun h0 =>
    (index parts 1).bind fun parts1 =>
    (index parts1 0).bind fun b =>
    (if b = '{' then (unwrap J parts1).bind asMap
     else parseResponseLoop (parts.drop 1) 0 []).bind fun message =>
    let r : AtlasReqResp :=
      { LogTime := h1, LengthHex := h3, Client := some c, Message := message }
    Res.ok { CommandType := h0,
             Command := if h0 = "request".toList then { Request := some r }
                        else { Response := some r } }

/-- The merge `for k, v := range m { message[k] = v }`. -/
def mergeInto (message : GoMap) (m : GoMap) : GoMap :=
  m.foldl (fun acc kv => mapSet acc kv.1 kv.2) message

/-- Loop of `parseError` over `parts[1:]`. -/
def parseErrorLoop (J : Json) : List Str → GoMap → Res GoMap
  | [], message => Res.ok message
  | msgJSON :: rest, message =>
    (unwrap J msgJSON).bind fun unwrapped =>
    (asMap unwrapped).bind fun m =>
    parseErrorLoop J rest (mergeInto message m)

/-- Go `Atlas.parseError`. -/
def parseError (J : Json) (msg : Str) : Res AtlasLog :=
  let parts := Split msg ['|']
  if parts.length < 2 then Res.err
  else
    (index parts 0).bind fun parts0 =>
    let headerParts := Split parts0 [',']
    if headerParts.length ≠ 3 then Res.err
    else
      (index headerParts 0).bind fun h0 =>
      (index headerParts 1).bind fun h1 =>
      (index headerParts 2).bind fun h2 =>
      (parseErrorLoop J (parts.drop 1) []).bind fun message =>
      let er : AtlasError := { LogTime := h1, LengthHex := h2, Message := message }
      Res.ok { CommandType := h0, Command := { Error := some er } }

/-- Go `Atlas.parseHostload`. -/
def parseHostload (msg : Str) : Res AtlasLog :=
  let parts := Split msg [',']
  if parts.length ≠ 6 then Res.err
  else
    (index parts 1).bind fun parts1 =>
    (index parts 2).bind fun parts2 =>
    (index parts 3).bind fun parts3 =>
    (atoi parts3).bind fun load =>
    (index parts 4).bind fun parts4 =>
    (index parts 5).bind fun parts5 =>
    (atoi parts5).bind fun flags =>
    let hl : AtlasHostLoad :=
      { LogTime := parts1, Vax := parts2, Load := load, VaxTime := parts4, Flags := flags }
    Res.ok { CommandType := "hostload".toList, Command := { Hostload := some hl } }

/-- The step `x, err = strconv.Atoi(fields[i])` of `parseOpuse`. -/
def atoiAt (fields : List Str) (i : Nat) : Res Int :=
  (index fields i).bind atoi

/-- Go `Atlas.parseOpuse`. -/
def parseOpuse (msg : Str) : Res AtlasLog :=
  let parts := Split msg ['\\', 't']
  if parts.length < 2 then Res.err
  else
    (index parts 0).bind fun parts0 =>
    let headerParts := Split parts0 [',']
    if headerParts.length ≠ 3 then Res.err
    else
      (index headerParts 0).bind fun h0 =>
      (index headerParts 1).bind fun h1 =>
      (index headerParts 2).bind fun h2 =>
      (index parts 1).bind fun parts1 =>
      let fields := Split parts1 ['\\']
      if fields.length ≠ 23 then Res.err
      else
        (index fields 0).bind fun host =>
        (atoiAt fields 2).bind fun portSet =>
        (index fields 4).bind fun usage =>
        (atoiAt fields 6).bind fun usedCur =>
        (atoiAt fields 8).bind fun queCur =>
        (atoiAt fields 10).bind fun usedPeak =>
        (atoiAt fields 12).bind fun quePeak =>
        (atoiAt fields 14).bind fun usedTot =>
        (atoiAt fields 16).bind fun queTot =>
        (atoiAt fields 18).bind fun min =>
        (atoiAt fields 20).bind fun max =>
        (atoiAt fields 22).bind fun ideal =>
        let op : AtlasOpUse :=
          { LogTime := h1, VaxTime := h2, Host := host, PortSet := portSet, Usage := usage,
            UsedCur := usedCur, QueCur := queCur, UsedPeak := usedPeak,
            QuePeak := quePeak, UsedTot := usedTot, QueTot := queTot,
            Min := min, Max := max, Ideal := ideal }
        Res.ok { CommandType := h0, Command := { Opuse := some op } }

/-- Go `Atlas.parseUnparsed`; `Split` never returns an empty list, so `parts[0]`
is its head. -/
def parseUnparsed (msg : Str) : AtlasLog :=
  { CommandType := (Split msg [',']).headD [], Command := { Unparsed := msg } }

/-- The `switch` of `Atlas.parse`: the sub-parser selected by the payload. -/
def dispatch (J : Json) (payload : Str) : Res AtlasLog :=
  if HasPrefix payload "response,".toList then parseResponse J payload
  else if HasPrefix payload "request,".toList then parseResponse J payload
  else if HasPrefix payload "error,".toList then parseError J payload
  else if HasPrefix payload "opuse,".toList then parseOpuse payload
  else if HasPrefix payload "hostload,".toList then parseHostload payload
  else Res.ok (parseUnparsed payload)

/-- Go `Atlas.parse`, up to the record handed to `json.Marshal`. `parseTime` is
`time.Parse` applied to the current year followed by the 15-byte timestamp. -/
def parse (J : Json) (parseTime : Str → Option Time) (msg : Str) : Res AtlasLog :=
  if msg.length < 16 then Res.panic
  else
    let tsMsg := msg.take 15
    let sMsg := msg.drop 16
    match SplitN sMsg [' '] 3 with
    | [parts0, _, parts2] =>
      (match dispatch J parts2 with
        | Res.ok l => Res.ok l
        | Res.err => Res.ok (parseUnparsed parts2)
        | Res.panic => Res.panic).bind fun atlasLog =>
      match parseTime tsMsg with
      | none => Res.err
      | some ts => Res.ok { atlasLog with Timestamp := ts, Hostname := parts0 }
    | _ => Res.err

/-- Go `Atlas.parse` with its last step: the record is encoded by `json.Marshal`
(`marshal`, with `none` when it returns an error). -/
def parseBytes (J : Json) (marshal : AtlasLog → Option Str)
    (parseTime : Str → Option Time) (msg : Str) : Res Str :=
  (parse J parseTime msg).bind fun atlasLog =>
  match marshal atlasLog with
  | some b => Res.ok b
  | none => Res.err

/-- The stripping steps of `ProcessMessage`: `part[1 : len(part)-1]`, then the
test `part[len(part)-1] == ';'` and the removal of that byte. -/
def stripPart (part : Str) : Res Str :=
  if part.length < 2 then Res.panic
  else
    let p := (part.drop 1).take (part.length - 2)
    match p.getLast? with
    | none => Res.panic
    | some c => if c = ';' then Res.ok p.dropLast else Res.ok p

/-- The loop of `ProcessMessage` over `targetParts`: parts are read from `msg` and
written into `newMsg`. An index outside the message reads as an empty part. -/
def processLoop (J : Json) (marshal : AtlasLog → Option Str)
    (parseTime : Str → Option Time) (msg : List Str) :
    List Nat → List Str → Res (List Str)
  | [], newMsg => Res.ok newMsg
  | index :: rest, newMsg =>
    let part := msg.getD index []
    if part = "null".toList then processLoop J marshal parseTime msg rest newMsg
    else
      (stripPart part).bind fun stripped =>
      match parseBytes J marshal parseTime stripped with
      | Res.ok newPart =>
        processLoop J marshal parseTime msg rest (newMsg.set index newPart)
      | Res.err => processLoop J marshal parseTime msg rest newMsg
      | Res.panic => Res.panic

/-- Go `Atlas.ProcessMessage` on a message given as the list of its parts, with
the configured part indices `confParts` (non-negative): `none` stands for the
result `nil` with an acknowledgement, `some newMsg` for the one message
`newMsg`. -/
def ProcessMessage (J : Json) (marshal : AtlasLog → Option Str)
    (parseTime : Str → Option Time) (confParts : List Nat) (msg : List Str) :
    Res (Option (List Str)) :=
  let targetParts := if confParts = [] then List.range msg.length else confParts
  (processLoop J marshal parseTime msg targetParts msg).bind fun newMsg =>
  if newMsg.length = 0 then Res.ok none else Res.ok (some newMsg)

/-! ## The span writer (`lightstep.go`) -/

/-- A finished span, as the tracing client receives it. -/
structure Span where
  tracer : Nat
  operationName : Str
  startTime : Time
  finishTime : Time
  tags : GoMap

/-- State of a `LightStep` writer: the tracer registry (a nil tracer is `none`),
and a record of what the tracing client was asked to do (calls of `NewTracer`,
handles flushed, spans finished). `newTracer hostname component` tells whether
`lightstep.NewTracer`, called with the options built from the configuration and
these two tags, returns a tracer rather than nil. -/
structure LightStep where
  newTracer : Str → Str → Bool := fun _ _ => true
  tracers : List (Str × Option Nat) := []
  created : Nat := 0
  flushed : List Nat := []
  spans : List Span := []

/-- Go `LightStep.getOrMakeTracer`; a tracer made by `lightstep.NewTracer` gets
the next unused handle. The returned error is always nil. -/
def getOrMakeTracer (ls : LightStep) (hostname component : Str) :
    LightStep × Option Nat :=
  let guid := hostname ++ [':'] ++ component
  match mapGet ls.tracers guid with
  | some (some tracer) => (ls, some tracer)
  | _ =>
    let tracer := if ls.newTracer hostname component then some ls.created else none
    ({ ls with tracers := mapSet ls.tracers guid tracer, created := ls.created + 1 },
      tracer)

/-- Go `LightStep.CloseAsync`: every non-nil tracer of the registry is flushed;
the registry itself is left as it is. -/
def CloseAsync (ls : LightStep) : LightStep :=
  { ls with flushed := ls.flushed ++ ls.tracers.filterMap Prod.snd }

/-- Tags set by the inner loop of `Write` over the header map. -/
def headerTags : List (Str × Value) → GoMap → GoMap
  | [], tags => tags
  | (k, val) :: rest, tags =>
    if k = "duration".toList then headerTags rest tags
    else if k = "uid".toList then
      headerTags rest (mapSet tags "guid:correlation_id".toList val)
    else if k = "sid".toList then headerTags rest (mapSet tags "guid:sid".toList val)
    else headerTags rest (mapSet tags k val)

/-- Tags set by the inner loop of `Write` over a map other than the header. -/
def commandTags (msg : Str) : List (Str × Value) → GoMap → GoMap
  | [], tags => tags
  | (k, val) :: rest, tags =>
    match val with
    | Value.str _ => commandTags msg rest (mapSet tags (msg ++ ['.'] ++ k) val)
    | Value.float _ => commandTags msg rest (mapSet tags (msg ++ ['.'] ++ k) val)
    | _ => commandTags msg rest tags

/-- The loop of `Write` over `resp.Message`; `range m` is the order in which Go
iterates over the entries of the map `m`. -/
def messageTags (range : GoMap → List (Str × Value)) :
    List (Str × Value) → GoMap → Res GoMap
  | [], tags => Res.ok tags
  | (msg, v) :: rest, tags =>
    (asMap v).bind fun m =>
    if msg = "header".toList then messageTags range rest (headerTags (range m) tags)
    else messageTags range rest (commandTags msg (range m) tags)

/-- Type assertion `v.(string)`. -/
def asString : Value → Res Str
  | Value.str s => Res.ok s
  | _ => Res.panic

/-- Body of the callback of `LightStep.Write` after the part has been decoded
into `atl`. `parseDuration` is `time.ParseDuration`, in nanoseconds. -/
def writePart (range : GoMap → List (Str × Value)) (parseDuration : Str → Option Int)
    (ls : LightStep) (atl : AtlasLog) : Res LightStep :=
  if atl.Command.Unparsed ≠ [] then Res.ok ls
  else
    match atl.Command.Response with
    | none => Res.panic
    | some resp =>
      match mapGet resp.Message "header".toList with
      | none => Res.ok ls
      | some Value.null => Res.ok ls
      | some h =>
        (asMap h).bind fun header =>
        match mapGet header "duration".toList with
        | none => Res.ok ls
        | some Value.null => Res.ok ls
        | some dv =>
          (asString dv).bind fun ds =>
          match parseDuration (ds ++ ['s']) with
          | none => Res.err
          | some d =>
            let endTime := atl.Timestamp + d
            let lt := getOrMakeTracer ls atl.Hostname "atlas".toList
            match lt.2 with
            | none => Res.panic
            | some tracer =>
              match resp.Client with
              | none => Res.panic
              | some client =>
                (messageTags range (range resp.Message)
                  (mapSet [] "client".toList (Value.str client.IP))).bind fun tags =>
                let span : Span :=
                  { tracer := tracer, operationName := atl.CommandType,
                    startTime := atl.Timestamp, finishTime := endTime, tags := tags }
                Res.ok { lt.1 with spans := lt.1.spans ++ [span] }

/-- Go `LightStep.Write` on the parts of a message: `msg.Iter` stops at the first
error. -/
def Write (J : Json) (range : GoMap → List (Str × Value))
    (parseDuration : Str → Option Int) : LightStep → List Str → Res LightStep
  | ls, [] => Res.ok ls
  | ls, p :: ps =>
    match J.unmarshalLog p with
    | none => Res.err
    | some atl =>
      (writePart range parseDuration ls atl).bind fun ls1 =>
      Write J range parseDuration ls1 ps

/-- A call on the tracer registry. -/
inductive RegistryOp where
  | get (hostname component : Str)
  | close

/-- A sequence of registry calls, one after the other. -/
def runOps : LightStep → List RegistryOp → LightStep
  | ls, [] => ls
  | ls, RegistryOp.get hostname component :: rest =>
    runOps (getOrMakeTracer ls hostname component).1 rest
  | ls, RegistryOp.close :: rest => runOps (CloseAsync ls) rest

/-! ## Notions used in the statements -/

/-- Field number `i` (from 0) of a list of pieces; empty when there is none. -/
def field (xs : List Str) (i : Nat) : Str := xs.getD i []

/-- The header fields of an opuse payload: `headerParts` of `parseOpuse`. -/
def opuseHeader (msg : Str) : List Str :=
  Split (field (Split msg ['\\', 't']) 0) [',']

/-- The fields of the data block of an opuse payload: `fields` of `parseOpuse`,
the pieces of `parts[1]` cut at every backslash. -/
def opuseFields (msg : Str) : List Str :=
  Split (field (Split msg ['\\', 't']) 1) ['\\']

/-- The fragment `k1=v1,...,kn=vn` written from a list of key and value texts. -/
def kvFragment : List (Str × Str) → Str
  | [] => []
  | [(k, v)] => k ++ '=' :: v
  | (k, v) :: rest => k ++ '=' :: v ++ ',' :: kvFragment rest

/-- The value text of the last pair with key `k`, if there is one. -/
def lastValue : List (Str × Str) → Str → Option Str
  | [], _ => none
  | (k', v) :: rest, k =>
    match lastValue rest k with
    | some w => some w
    | none => if k' = k then some v else none

/-- The value stored for the value text `v`: the integer it writes when it is a
`decimal` in the range of a 64-bit `int`, the string `v` otherwise. -/
def kvValue (v : Str) : Value :=
  match decimal v with
  | some n => if -(2 : Int) ^ 63 ≤ n ∧ n ≤ (2 : Int) ^ 63 - 1 then Value.int n else Value.str v
  | none => Value.str v

/-- Lookup in the right-biased union of a list of maps: the value of `k` in the
last map that has `k`. -/
def unionGet : List GoMap → Str → Option Value
  | [], _ => none
  | m :: rest, k =>
    match unionGet rest k with
    | some v => some v
    | none => mapGet m k

/-- Number of populated variants of a command: `Unparsed` counts when its text
is non-empty, the five pointers when non-nil. -/
def populated (c : AtlasCommand) : Nat :=
  (if c.Unparsed = [] then 0 else 1) + (if c.Request.isSome then 1 else 0) +
    (if c.Response.isSome then 1 else 0) + (if c.Error.isSome then 1 else 0) +
    (if c.Opuse.isSome then 1 else 0) + (if c.Hostload.isSome then 1 else 0)

/-- The part that replaces `part` in the output of `ProcessMessage`: `null` and
parts on which `parse` returns an error stay as they are, the others become the
output of `parse` on the stripped part. -/
def expectedPart (J : Json) (marshal : AtlasLog → Option Str)
    (parseTime : Str → Option Time) (part : Str) : Str :=
  if part = "null".toList then part
  else
    match (stripPart part).bind (parseBytes J marshal parseTime) with
    | Res.ok newPart => newPart
    | _ => part

/-- A `Json` that decodes two texts the way `encoding/json` does, the wrapper
object whose `data` member is the string `5` to the `Data` string `5` and the
text `5` to the number 5, and that rejects every other text. -/
def fiveJson : Json :=
  { unmarshalWrapper := fun s =>
      if s = "\x7b\"data\":\"5\"\x7d".toList then some "5".toList else none,
    unmarshalValue := fun s => if s = "5".toList then some (Value.float 5) else none,
    unmarshalLog := fun _ => none }

/-- The tag that the header loop of `Write` sets for the header key `k`, if it
sets one. -/
def headerTagName (k : Str) : Option Str :=
  if k = "duration".toList then none
  else if k = "uid".toList then some "guid:correlation_id".toList
  else if k = "sid".toList then some "guid:sid".toList
  else some k

/-- A `Json` whose decoders reject every input, for examples in which decoding
plays no part. -/
def noJson : Json :=
  { unmarshalWrapper := fun _ => none, unmarshalValue := fun _ => none,
    unmarshalLog := fun _ => none }

/-! ## Lemmas on results and on the string functions -/

@[simp] theorem Res.bind_ok {α β : Type} (a : α) (f : α → Res β) :
    (Res.ok a).bind f = f a := rfl

@[simp] theorem Res.bind_err {α β : Type} (f : α → Res β) :
    (Res.err : Res α).bind f = Res.err := rfl

@[simp] theorem Res.bind_panic {α β : Type} (f : α → Res β) :
    (Res.panic : Res α).bind f = Res.panic := rfl

theorem Res.eq_err_of {α : Type} {x : Res α} (hok : ∀ a, x ≠ Res.ok a)
    (hp : x ≠ Res.panic) : x = Res.err := by
  cases x with
  | ok a => exact absurd rfl (hok a)
  | err => rfl
  | panic => exact absurd rfl hp

theorem index_of_lt {xs : List Str} {i : Nat} (h : i < xs.length) :
    index xs i = Res.ok (field xs i) := by
  simp [index, field, List.getD, List.getElem?_eq_getElem h]

theorem splitAux_single (c x : Char) (t : Str) :
    splitAux [c] 0 (x :: t) =
      if x = c then [] :: splitAux [c] 0 t else consHead x (splitAux [c] 0 t) := by
  by_cases h : x = c
  · subst h; simp [splitAux, List.isPrefixOf]
  · have h' : ¬ c = x := fun e => h e.symm
    simp [splitAux, List.isPrefixOf, h, h']

theorem headD_consHead (x : Char) (l : List Str) :
    (consHead x l).headD [] = x :: l.headD [] := by
  cases l <;> rfl

theorem headD_Split_single (c : Char) (s : Str) :
    (Split s [c]).headD [] = s.takeWhile (fun x => x != c) := by
  unfold Split
  induction s with
  | nil => rfl
  | cons x t ih =>
    rw [splitAux_single]
    by_cases h : x = c
    · simp [h]
    · rw [if_neg h, headD_consHead, ih]
      simp [h]

theorem digitChar_spec : ∀ m, m < 10 →
    ('0' ≤ Nat.digitChar m ∧ Nat.digitChar m ≤ '9') ∧ (Nat.digitChar m).toNat - 48 = m := by
  decide

theorem parseDigits_toDigitsCore : ∀ (fuel n : Nat) (ds : Str), n < fuel →
    parseDigits (Nat.toDigitsCore 10 fuel n ds) 0 = parseDigits ds n := by
  intro fuel
  induction fuel with
  | zero => intro n ds h; omega
  | succ f ih =>
    intro n ds h
    have hd := digitChar_spec (n % 10) (Nat.mod_lt _ (by decide))
    simp only [Nat.toDigitsCore]
    split_ifs with h0
    · have hn : n % 10 = n := by omega
      simp only [parseDigits, hd.1, and_self, if_true, hd.2]
      rw [hn]; simp
    · rw [ih (n / 10) _ (by omega)]
      simp only [parseDigits, hd.1, and_self, if_true, hd.2]
      congr 1
      omega

theorem parseDigits_itoa (n : Nat) : parseDigits (itoa n) 0 = some n := by
  unfold itoa Nat.toDigits
  rw [parseDigits_toDigitsCore _ _ _ (by omega)]
  rfl

theorem itoa_injective {i j : Nat} (h : itoa i = itoa j) : i = j := by
  have hi := parseDigits_itoa i
  rw [h, parseDigits_itoa] at hi
  exact (Option.some.inj hi).symm

theorem cmdKey_injective {i j : Nat} (h : cmdKey i = cmdKey j) : i = j := by
  unfold cmdKey at h
  by_cases hi : i = 0 <;> by_cases hj : j = 0
  · omega
  · rw [if_pos hi, if_neg hj] at h
    simp at h
  · rw [if_neg hi, if_pos hj] at h
    simp at h
  · rw [if_neg hi, if_neg hj] at h
    exact itoa_injective (List.append_cancel_left h)

theorem mapGet_mapSet_self {V : Type} (m : List (Str × V)) (k : Str) (v : V) :
    mapGet (mapSet m k v) k = some v := by
  induction m with
  | nil => simp [mapSet, mapGet]
  | cons e t ih =>
    obtain ⟨k', v'⟩ := e
    by_cases h : k' = k
    · simp [mapSet, mapGet, h]
    · simp [mapSet, mapGet, h, ih]

theorem mapGet_mapSet_ne {V : Type} (m : List (Str × V)) (k k2 : Str) (v : V)
    (hne : k2 ≠ k) : mapGet (mapSet m k v) k2 = mapGet m k2 := by
  induction m with
  | nil => simp [mapSet, mapGet, Ne.symm hne]
  | cons e t ih =>
    obtain ⟨k', v'⟩ := e
    by_cases h : k' = k
    · subst h
      simp [mapSet, mapGet, Ne.symm hne]
    · by_cases h2 : k' = k2
      · subst h2
        simp [mapSet, mapGet, h]
      · simp [mapSet, mapGet, h, h2, ih]

/-! ## Format dispatch and demotion to `Unparsed` -/

/-- C1: on a line that passes header splitting and whose timestamp parses, when
the sub-parser selected by the payload returns an error the emitted record is the
Unparsed record: `Command.Unparsed` is the whole payload, `CommandType` is the
payload text before its first comma, and `Request`, `Response`, `Error`, `Opuse`
and `Hostload` are all nil. -/
theorem parse_subparser_error_unparsed (J : Json) (parseTime : Str → Option Time)
    (msg host label payload : Str) (ts : Time)
    (hlen : 16 ≤ msg.length)
    (hsplit : SplitN (msg.drop 16) [' '] 3 = [host, label, payload])
    (hts : parseTime (msg.take 15) = some ts)
    (herr : dispatch J payload = Res.err) :
    parse J parseTime msg = Res.ok
      { CommandType := payload.takeWhile (fun c => c != ','),
        Hostname := host,
        Timestamp := ts,
        Command := { Unparsed := payload, Request := none, Response := none,
                     Error := none, Opuse := none, Hostload := none } } := by
  have hl : ¬ msg.length < 16 := by omega
  simp only [parse, hl, hsplit, herr, Res.bind, hts, parseUnparsed, headD_Split_single,
    if_false]

theorem parse_subparser_error_unparsed_witness :
    parse noJson (fun _ => some 7) "Aug 22 15:18:32 host atlas: hostload,13:24:05.630".toList =
      Res.ok
        { CommandType := "hostload".toList,
          Hostname := "host".toList,
          Timestamp := 7,
          Command := { Unparsed := "hostload,13:24:05.630".toList } } :=
  parse_subparser_error_unparsed noJson (fun _ => some 7)
    "Aug 22 15:18:32 host atlas: hostload,13:24:05.630".toList
    "host".toList "atlas:".toList "hostload,13:24:05.630".toList 7
    (by decide) (by decide) rfl rfl

/-- C2: a line with a timestamp, a hostname, a component label and the payload
`response,10:51:02.620|x=1` makes `parse` stop with a run-time panic:
`parseResponse` reads `responseHeader[2]` of a two-field header. -/
theorem parse_short_response_header_panics (J : Json) (parseTime : Str → Option Time) :
    parse J parseTime "Aug 22 15:18:32 host atlas: response,10:51:02.620|x=1".toList =
      Res.panic := by
  rfl

/-- C3: the record that `parse` emits for a hostload line has a nil `Response`
and an empty `Unparsed`, and on that record the body of `Write` stops with a
run-time panic when it reads `resp.Message`, instead of skipping the record. -/
theorem write_hostload_record_panics (J : Json) (ts : Time)
    (range : GoMap → List (Str × Value)) (parseDuration : Str → Option Int)
    (ls : LightStep) :
    parse J (fun _ => some ts)
        "Aug 22 15:18:32 host atlas: hostload,13:24:05.630,ARZ,0,13:24:04,29".toList =
      Res.ok
        { CommandType := "hostload".toList,
          Hostname := "host".toList,
          Timestamp := ts,
          Command := { Hostload := some {
            LogTime := "13:24:05.630".toList, Vax := "ARZ".toList, Load := 0,
            VaxTime := "13:24:04".toList, Flags := 29 } } } ∧
    writePart range parseDuration ls
        { CommandType := "hostload".toList,
          Hostname := "host".toList,
          Timestamp := ts,
          Command := { Hostload := some {
            LogTime := "13:24:05.630".toList, Vax := "ARZ".toList, Load := 0,
            VaxTime := "13:24:04".toList, Flags := 29 } } } = Res.panic := by
  exact ⟨rfl, rfl⟩

/-! ## The fixed-arity sub-parsers -/

/-- C5: `newClientHeader` succeeds exactly when its input splits on `/` into
exactly 4 parts of which the 1st, 3rd and 4th are accepted by `Atoi`; the result
then holds those four parts in order (the IP as text); otherwise it returns an
error. The quad `363776339/192.168.48.45/52401/414` yields Message 363776339,
IP `192.168.48.45`, Port 52401, Socket 414. -/
theorem newClientHeader_spec (header : Str) (c : AtlasClientHeader) :
    (newClientHeader header = Res.ok c ↔
      (Split header ['/']).length = 4 ∧
        Atoi (field (Split header ['/']) 0) = some c.Message ∧
        field (Split header ['/']) 1 = c.IP ∧
        Atoi (field (Split header ['/']) 2) = some c.Port ∧
        Atoi (field (Split header ['/']) 3) = some c.Socket) ∧
    newClientHeader header ≠ Res.panic ∧
    newClientHeader "363776339/192.168.48.45/52401/414".toList =
      Res.ok { Message := 363776339, IP := "192.168.48.45".toList, Port := 52401,
               Socket := 414 } := by
  obtain ⟨m, ip, port, sock⟩ := c
  unfold newClientHeader
  generalize Split header ['/'] = parts
  refine ⟨?_, ?_, by decide⟩
  all_goals
    by_cases hl : parts.length = 4
    · have i0 : index parts 0 = Res.ok (field parts 0) := index_of_lt (by omega)
      have i1 : index parts 1 = Res.ok (field parts 1) := index_of_lt (by omega)
      have i2 : index parts 2 = Res.ok (field parts 2) := index_of_lt (by omega)
      have i3 : index parts 3 = Res.ok (field parts 3) := index_of_lt (by omega)
      cases h0 : Atoi (field parts 0) <;> cases h2 : Atoi (field parts 2) <;>
        cases h3 : Atoi (field parts 3) <;>
          simp [hl, i0, i1, i2, i3, atoi, h0, h2, h3]
    · simp [hl]

/-- C6: `parseHostload` succeeds exactly when the payload splits on `,` into
exactly 6 fields whose 4th and 6th are accepted by `Atoi`; the record then has
CommandType `hostload` and LogTime, Vax, Load, VaxTime, Flags equal to fields 2 to
6 in order; otherwise it returns an error. The line
`hostload,13:24:05.630,ARZ,0,13:24:04,29` yields Vax `ARZ`, Load 0, VaxTime
`13:24:04`, Flags 29. -/
theorem parseHostload_spec (msg : Str) (r : AtlasLog) :
    (parseHostload msg = Res.ok r ↔
      (Split msg [',']).length = 6 ∧
        ∃ load flags, Atoi (field (Split msg [',']) 3) = some load ∧
          Atoi (field (Split msg [',']) 5) = some flags ∧
          r = { CommandType := "hostload".toList,
                Command := { Hostload := some {
                  LogTime := field (Split msg [',']) 1,
                  Vax := field (Split msg [',']) 2,
                  Load := load,
                  VaxTime := field (Split msg [',']) 4,
                  Flags := flags } } }) ∧
    parseHostload msg ≠ Res.panic ∧
    parseHostload "hostload,13:24:05.630,ARZ,0,13:24:04,29".toList =
      Res.ok { CommandType := "hostload".toList,
               Command := { Hostload := some {
                 LogTime := "13:24:05.630".toList, Vax := "ARZ".toList, Load := 0,
                 VaxTime := "13:24:04".toList, Flags := 29 } } } := by
  unfold parseHostload
  generalize Split msg [','] = parts
  refine ⟨?_, ?_, rfl⟩
  all_goals
    by_cases hl : parts.length = 6
    · have i1 : index parts 1 = Res.ok (field parts 1) := index_of_lt (by omega)
      have i2 : index parts 2 = Res.ok (field parts 2) := index_of_lt (by omega)
      have i3 : index parts 3 = Res.ok (field parts 3) := index_of_lt (by omega)
      have i4 : index parts 4 = Res.ok (field parts 4) := index_of_lt (by omega)
      have i5 : index parts 5 = Res.ok (field parts 5) := index_of_lt (by omega)
      cases h3 : Atoi (field parts 3) <;> cases h5 : Atoi (field parts 5) <;>
          simp [hl, i1, i2, i3, i4, i5, atoi, h3, h5, eq_comm]
    · simp [hl]

theorem atoiAt_of_lt {fields : List Str} {i : Nat} (h : i < fields.length) :
    atoiAt fields i = atoi (field fields i) := by
  simp [atoiAt, index_of_lt h]

theorem parseOpuse_iff (msg : Str) (r : AtlasLog) :
    (parseOpuse msg = Res.ok r ↔
      2 ≤ (Split msg ['\\', 't']).length ∧
      (opuseHeader msg).length = 3 ∧
      (opuseFields msg).length = 23 ∧
      ∃ portSet usedCur queCur usedPeak quePeak usedTot queTot min max ideal,
        Atoi (field (opuseFields msg) 2) = some portSet ∧
        Atoi (field (opuseFields msg) 6) = some usedCur ∧
        Atoi (field (opuseFields msg) 8) = some queCur ∧
        Atoi (field (opuseFields msg) 10) = some usedPeak ∧
        Atoi (field (opuseFields msg) 12) = some quePeak ∧
        Atoi (field (opuseFields msg) 14) = some usedTot ∧
        Atoi (field (opuseFields msg) 16) = some queTot ∧
        Atoi (field (opuseFields msg) 18) = some min ∧
        Atoi (field (opuseFields msg) 20) = some max ∧
        Atoi (field (opuseFields msg) 22) = some ideal ∧
        r = { CommandType := field (opuseHeader msg) 0,
              Command := { Opuse := some {
                LogTime := field (opuseHeader msg) 1,
                VaxTime := field (opuseHeader msg) 2,
                Host := field (opuseFields msg) 0,
                PortSet := portSet,
                Usage := field (opuseFields msg) 4,
                UsedCur := usedCur, QueCur := queCur, UsedPeak := usedPeak,
                QuePeak := quePeak, UsedTot := usedTot, QueTot := queTot,
                Min := min, Max := max, Ideal := ideal } } }) ∧
    parseOpuse msg ≠ Res.panic := by
  unfold parseOpuse opuseHeader opuseFields
  generalize Split msg ['\\', 't'] = parts
  by_cases hp : parts.length < 2
  · have : ¬ 2 ≤ parts.length := by omega
    simp [hp, this]
  have hp2 : 2 ≤ parts.length := by omega
  have ip0 : index parts 0 = Res.ok (field parts 0) := index_of_lt (by omega)
  have ip1 : index parts 1 = Res.ok (field parts 1) := index_of_lt (by omega)
  simp only [hp, if_false, ip0, ip1, Res.bind_ok]
  generalize Split (field parts 0) [','] = header
  generalize Split (field parts 1) ['\\'] = fields
  by_cases hh : header.length = 3
  swap
  · simp [hh]
  have ih0 : index header 0 = Res.ok (field header 0) := index_of_lt (by omega)
  have ih1 : index header 1 = Res.ok (field header 1) := index_of_lt (by omega)
  have ih2 : index header 2 = Res.ok (field header 2) := index_of_lt (by omega)
  by_cases hf : fields.length = 23
  swap
  · simp [hh, hf, ih0, ih1, ih2]
  have if0 : index fields 0 = Res.ok (field fields 0) := index_of_lt (by omega)
  have if4 : index fields 4 = Res.ok (field fields 4) := index_of_lt (by omega)
  have a2 : atoiAt fields 2 = atoi (field fields 2) := atoiAt_of_lt (by omega)
  have a6 : atoiAt fields 6 = atoi (field fields 6) := atoiAt_of_lt (by omega)
  have a8 : atoiAt fields 8 = atoi (field fields 8) := atoiAt_of_lt (by omega)
  have a10 : atoiAt fields 10 = atoi (field fields 10) := atoiAt_of_lt (by omega)
  have a12 : atoiAt fields 12 = atoi (field fields 12) := atoiAt_of_lt (by omega)
  have a14 : atoiAt fields 14 = atoi (field fields 14) := atoiAt_of_lt (by omega)
  have a16 : atoiAt fields 16 = atoi (field fields 16) := atoiAt_of_lt (by omega)
  have a18 : atoiAt fields 18 = atoi (field fields 18) := atoiAt_of_lt (by omega)
  have a20 : atoiAt fields 20 = atoi (field fields 20) := atoiAt_of_lt (by omega)
  have a22 : atoiAt fields 22 = atoi (field fields 22) := atoiAt_of_lt (by omega)
  simp only [hh, hf, ih0, ih1, ih2, if0, if4, a2, a6, a8, a10, a12, a14, a16, a18, a20, a22,
    ne_eq, not_true_eq_false, if_false, Res.bind_ok, hp2, true_and, atoi]
  cases h2 : Atoi (field fields 2)
  · simp
  cases h6 : Atoi (field fields 6)
  · simp
  cases h8 : Atoi (field fields 8)
  · simp
  cases h10 : Atoi (field fields 10)
  · simp
  cases h12 : Atoi (field fields 12)
  · simp
  cases h14 : Atoi (field fields 14)
  · simp
  cases h16 : Atoi (field fields 16)
  · simp
  cases h18 : Atoi (field fields 18)
  · simp
  cases h20 : Atoi (field fields 20)
  · simp
  cases h22 : Atoi (field fields 22)
  · simp
  simp [eq_comm]

/-- C7, as stated: with the twelve values of the data block separated by single
backslashes the block has 12 fields, not 23, and `parseOpuse` returns an error. -/
theorem parseOpuse_single_backslash_rejected :
    parseOpuse
      "opuse,14:54:35.450,14:54:35\\tCH6\\6\\CartOps\\0\\0\\10\\8\\406347\\406361\\0\\100\\9".toList =
      Res.err := by
  rfl

/-- C7, amended: the opuse payload made of the header
`opuse,14:54:35.450,14:54:35`, the two-byte separator backslash-`t`, and the data
block in which consecutive values are separated by two backslashes is parsed
into an Opuse record with Host `CH6`, PortSet 6, Usage `CartOps`, UsedCur 0,
QueCur 0, UsedPeak 10, QuePeak 8, UsedTot 406347, QueTot 406361, Min 0, Max 100,
Ideal 9. -/
theorem parseOpuse_double_backslash_example :
    parseOpuse
      "opuse,14:54:35.450,14:54:35\\tCH6\\\\6\\\\CartOps\\\\0\\\\0\\\\10\\\\8\\\\406347\\\\406361\\\\0\\\\100\\\\9".toList =
      Res.ok { CommandType := "opuse".toList,
               Command := { Opuse := some {
                 LogTime := "14:54:35.450".toList, VaxTime := "14:54:35".toList,
                 Host := "CH6".toList, PortSet := 6, Usage := "CartOps".toList,
                 UsedCur := 0, QueCur := 0, UsedPeak := 10, QuePeak := 8,
                 UsedTot := 406347, QueTot := 406361, Min := 0, Max := 100,
                 Ideal := 9 } } } := by
  rfl

/-- C8: when `parseOpuse` accepts a payload, the data block (`parts[1]`, the text
between the first and the second separator, or up to the end) splits on the
backslash into exactly 23 fields, and the Opuse record has Host, PortSet, Usage,
UsedCur, QueCur, UsedPeak, QuePeak, UsedTot, QueTot, Min, Max, Ideal equal to
fields 0, 2, 4, ..., 22 (the numeric ones as the integer `Atoi` reads) and LogTime,
VaxTime equal to header fields 2 and 3; and when `Atoi` rejects one of the ten
numeric fields `parseOpuse` returns an error. -/
theorem parseOpuse_fields (msg : Str) :
    (∀ r, parseOpuse msg = Res.ok r →
      (opuseFields msg).length = 23 ∧
      ∃ op, r.Command.Opuse = some op ∧
        op.Host = field (opuseFields msg) 0 ∧
        Atoi (field (opuseFields msg) 2) = some op.PortSet ∧
        op.Usage = field (opuseFields msg) 4 ∧
        Atoi (field (opuseFields msg) 6) = some op.UsedCur ∧
        Atoi (field (opuseFields msg) 8) = some op.QueCur ∧
        Atoi (field (opuseFields msg) 10) = some op.UsedPeak ∧
        Atoi (field (opuseFields msg) 12) = some op.QuePeak ∧
        Atoi (field (opuseFields msg) 14) = some op.UsedTot ∧
        Atoi (field (opuseFields msg) 16) = some op.QueTot ∧
        Atoi (field (opuseFields msg) 18) = some op.Min ∧
        Atoi (field (opuseFields msg) 20) = some op.Max ∧
        Atoi (field (opuseFields msg) 22) = some op.Ideal ∧
        op.LogTime = field (opuseHeader msg) 1 ∧
        op.VaxTime = field (opuseHeader msg) 2) ∧
    ((∃ i ∈ [2, 6, 8, 10, 12, 14, 16, 18, 20, 22], Atoi (field (opuseFields msg) i) = none) →
      parseOpuse msg = Res.err) := by
  constructor
  · intro r hr
    obtain ⟨_, _, h23, p, uc, qc, up, qp, ut, qt, mn, mx, idl, h2, h6, h8, h10, h12, h14,
      h16, h18, h20, h22, rfl⟩ := ((parseOpuse_iff msg r).1).1 hr
    exact ⟨h23, _, rfl, rfl, h2, rfl, h6, h8, h10, h12, h14, h16, h18, h20, h22, rfl, rfl⟩
  · rintro ⟨i, hi, hnone⟩
    refine Res.eq_err_of (fun r hr => ?_) (parseOpuse_iff msg {}).2
    obtain ⟨_, _, _, p, uc, qc, up, qp, ut, qt, mn, mx, idl, h2, h6, h8, h10, h12, h14,
      h16, h18, h20, h22, _⟩ := ((parseOpuse_iff msg r).1).1 hr
    simp only [List.mem_cons, List.mem_singleton, List.not_mem_nil, or_false] at hi
    rcases hi with rfl | rfl | rfl | rfl | rfl | rfl | rfl | rfl | rfl | rfl <;>
      simp_all

theorem parseOpuse_fields_witness :
    (opuseFields
      "opuse,14:54:35.450,14:54:35\\tCH6\\\\6\\\\CartOps\\\\0\\\\0\\\\10\\\\8\\\\406347\\\\406361\\\\0\\\\100\\\\9".toList).length
        = 23 ∧
    parseOpuse
      "opuse,14:54:35.450,14:54:35\\tCH6\\\\six\\\\CartOps\\\\0\\\\0\\\\10\\\\8\\\\406347\\\\406361\\\\0\\\\100\\\\9".toList =
      Res.err :=
  ⟨((parseOpuse_fields _).1 _ (Eq.refl (parseOpuse
      "opuse,14:54:35.450,14:54:35\\tCH6\\\\6\\\\CartOps\\\\0\\\\0\\\\10\\\\8\\\\406347\\\\406361\\\\0\\\\100\\\\9".toList))).1,
   (parseOpuse_fields _).2 ⟨2, by decide, by decide⟩⟩

/-! ## Request and response messages -/

theorem field_drop_one (xs : List Str) (j : Nat) : field (xs.drop 1) j = field xs (j + 1) := by
  cases xs with
  | nil => simp [field]
  | cons a t => simp [field]

theorem parseResponseLoop_spec : ∀ (fs : List Str) (i : Nat) (m m' : GoMap),
    parseResponseLoop fs i m = Res.ok m' →
    (∀ j, j < fs.length → ∃ u, uhmarshal (field fs j) = Res.ok u ∧
        mapGet m' (cmdKey (i + j)) = some (Value.obj u)) ∧
    (∀ k, (∀ j, j < fs.length → k ≠ cmdKey (i + j)) → mapGet m' k = mapGet m k) := by
  intro fs
  induction fs with
  | nil =>
    intro i m m' h
    simp only [parseResponseLoop, Res.ok.injEq] at h
    subst h
    exact ⟨fun j hj => absurd hj (by simp), fun k _ => rfl⟩
  | cons f rest ih =>
    intro i m m' h
    simp only [parseResponseLoop] at h
    cases hu : uhmarshal f with
    | err => rw [hu] at h; simp at h
    | panic => rw [hu] at h; simp at h
    | ok u =>
      rw [hu, Res.bind_ok] at h
      obtain ⟨ih1, ih2⟩ := ih (i + 1) _ m' h
      constructor
      · intro j hj
        cases j with
        | zero =>
          refine ⟨u, by simpa [field] using hu, ?_⟩
          rw [ih2 (cmdKey (i + 0)) (fun j _ hk => by have := cmdKey_injective hk; omega)]
          exact mapGet_mapSet_self _ _ _
        | succ j =>
          obtain ⟨u', hu', hg⟩ := ih1 j (by simpa using hj)
          refine ⟨u', by simpa [field] using hu', ?_⟩
          rw [← hg]
          congr 2
          omega
      · intro k hk
        rw [ih2 k (fun j hj => by
          have := hk (j + 1) (by simpa using hj)
          rwa [show i + (j + 1) = i + 1 + j by omega] at this)]
        exact mapGet_mapSet_ne _ _ _ _ (hk 0 (by simp))

theorem Res.bind_eq_ok {α β : Type} {x : Res α} {f : α → Res β} {b : β} :
    x.bind f = Res.ok b ↔ ∃ a, x = Res.ok a ∧ f a = Res.ok b := by
  cases x <;> simp [Res.bind]

theorem head?_of_index_zero {α : Type} {xs : List α} {b : α} (h : index xs 0 = Res.ok b) :
    xs.head? = some b := by
  cases xs with
  | nil => simp [index] at h
  | cons a t => simpa [index] using h

/-- C4: when `parseResponse` accepts a payload `header|f0|f1|...|fn` whose first
fragment `f0` does not begin with an opening brace, the Message of the Request or
Response record has exactly the keys `header` and `command1` ... `command<n>`:
`header` maps to the key=value decoding (`uhmarshal`) of `f0`, `command<i>` to that
of `fi` for every `i` from 1 to `n`, and no other key is present. -/
theorem parseResponse_message_keys (J : Json) (payload : Str) (r : AtlasLog)
    (hok : parseResponse J payload = Res.ok r)
    (hf0 : (field (Split payload ['|']) 1).head? ≠ some ('{')) :
    ∃ rr, (r.Command.Request = some rr ∨ r.Command.Response = some rr) ∧
      (∃ m, uhmarshal (field (Split payload ['|']) 1) = Res.ok m ∧
        mapGet rr.Message "header".toList = some (Value.obj m)) ∧
      (∀ i, 1 ≤ i → i + 1 < (Split payload ['|']).length →
        ∃ m, uhmarshal (field (Split payload ['|']) (i + 1)) = Res.ok m ∧
          mapGet rr.Message ("command".toList ++ itoa i) = some (Value.obj m)) ∧
      (∀ k, mapGet rr.Message k ≠ none →
        k = "header".toList ∨
          ∃ i, 1 ≤ i ∧ i + 1 < (Split payload ['|']).length ∧
            k = "command".toList ++ itoa i) := by
  unfold parseResponse at hok
  generalize Split payload ['|'] = parts at hok hf0 ⊢
  by_cases hp : parts.length < 2
  · simp [hp] at hok
  simp only [hp, if_false, Res.bind_eq_ok] at hok
  obtain ⟨p0, -, h2, -, c, -, h1, -, h3, -, h0, -, p1, hp1, b, hb, message, hmsg, hr⟩ := hok
  rw [index_of_lt (by omega)] at hp1
  cases hp1
  have hb' : b ≠ '{' := by
    intro e
    rw [head?_of_index_zero hb, e] at hf0
    exact hf0 rfl
  rw [if_neg hb'] at hmsg
  obtain ⟨hl1, hl2⟩ := parseResponseLoop_spec _ _ _ _ hmsg
  have hlen : (parts.drop 1).length = parts.length - 1 := by simp
  cases hr
  refine ⟨{ LogTime := h1, LengthHex := h3, Client := some c, Message := message }, ?_, ?_, ?_, ?_⟩
  · by_cases hreq : h0 = "request".toList
    · left; simp only [if_pos hreq]
    · right; simp only [if_neg hreq]
  · obtain ⟨u, hu, hg⟩ := hl1 0 (by omega)
    rw [field_drop_one] at hu
    exact ⟨u, hu, hg⟩
  · intro i hi1 hi2
    obtain ⟨u, hu, hg⟩ := hl1 i (by omega)
    rw [field_drop_one] at hu
    refine ⟨u, hu, ?_⟩
    have hk : cmdKey (0 + i) = "command".toList ++ itoa i := by
      simp [cmdKey, show i ≠ 0 by omega]
    rw [← hk]
    exact hg
  · intro k hk
    by_contra hcon
    apply hk
    rw [hl2 k]
    · rfl
    · intro j hj e
      apply hcon
      by_cases hj0 : j = 0
      · left; rw [e, hj0]; rfl
      · right
        refine ⟨j, by omega, by omega, ?_⟩
        rw [e]
        simp [cmdKey, hj0]

theorem parseResponse_message_keys_witness :
    ∃ rr : AtlasReqResp,
      (∃ m, uhmarshal "result=0x0,cache=1".toList = Res.ok m ∧
        mapGet rr.Message "header".toList = some (Value.obj m)) ∧
      (∃ m, uhmarshal "a=b".toList = Res.ok m ∧
        mapGet rr.Message "command1".toList = some (Value.obj m)) ∧
      mapGet rr.Message "command2".toList = none := by
  obtain ⟨rr, _, hh, hc, hk⟩ := parseResponse_message_keys noJson
    "response,10:51:02.620,363776339/192.168.48.45/52401/414,00000BDF|result=0x0,cache=1|a=b".toList
    { CommandType := "response".toList,
      Command := { Response := some {
        LogTime := "10:51:02.620".toList,
        Client := some { Message := 363776339, IP := "192.168.48.45".toList, Port := 52401,
                         Socket := 414 },
        LengthHex := "00000BDF".toList,
        Message := [("header".toList, Value.obj [("result".toList, Value.str "0x0".toList),
                      ("cache".toList, Value.int 1)]),
                    ("command1".toList, Value.obj [("a".toList, Value.str "b".toList)])] } } }
    rfl (by decide)
  refine ⟨rr, hh, hc 1 (by decide) (by decide), ?_⟩
  by_contra hne
  rcases hk _ hne with h | ⟨i, h1, h2, h3⟩
  · exact absurd h (by decide)
  · have hi : i = 1 := by
      have : i + 1 < 3 := h2
      omega
    subst hi
    exact absurd h3 (by decide)


/-! ## The key=value decoder -/

theorem Split_single_free (c : Char) (s : Str) (h : ∀ x ∈ s, x ≠ c) : Split s [c] = [s] := by
  unfold Split
  induction s with
  | nil => rfl
  | cons x t ih =>
    rw [splitAux_single, if_neg (h x (by simp)), ih (fun y hy => h y (by simp [hy]))]
    rfl

theorem Split_single_append (c : Char) (k v : Str) (h : ∀ x ∈ k, x ≠ c) :
    Split (k ++ c :: v) [c] = k :: Split v [c] := by
  unfold Split
  induction k with
  | nil => simp [splitAux_single]
  | cons x t ih =>
    rw [List.cons_append, splitAux_single, if_neg (h x (by simp)),
      ih (fun y hy => h y (by simp [hy]))]
    rfl

theorem Split_kv (k v : Str) (hk : ∀ x ∈ k, x ≠ '=') (hv : ∀ x ∈ v, x ≠ '=') :
    Split (k ++ '=' :: v) ['='] = [k, v] := by
  rw [Split_single_append _ _ _ hk, Split_single_free _ _ hv]

theorem fieldsAux_append (f : Char → Bool) (p : Str) (hp : ∀ x ∈ p, f x = false) :
    ∀ (cur s : Str), fieldsAux f cur (p ++ s) = fieldsAux f (p.reverse ++ cur) s := by
  induction p with
  | nil => intro cur s; rfl
  | cons x t ih =>
    intro cur s
    have hx : f x = false := hp x (by simp)
    rw [List.cons_append, fieldsAux]
    simp only [hx, Bool.false_eq_true, if_false]
    rw [ih (fun y hy => hp y (by simp [hy]))]
    simp

theorem FieldsFunc_kvFragment (kvs : List (Str × Str))
    (h : ∀ p ∈ kvs, (∀ x ∈ p.1, x ≠ ',') ∧ (∀ x ∈ p.2, x ≠ ',')) :
    FieldsFunc (kvFragment kvs) (fun c => c == ',') =
      kvs.map (fun p => p.1 ++ '=' :: p.2) := by
  unfold FieldsFunc
  induction kvs with
  | nil => rfl
  | cons p rest ih =>
    obtain ⟨k, v⟩ := p
    have hp := h (k, v) (by simp)
    have hfree : ∀ x ∈ k ++ '=' :: v, (fun c => c == ',') x = false := by
      intro x hx
      simp only [List.mem_append, List.mem_cons] at hx
      rcases hx with hx | hx | hx
      · simpa using hp.1 x hx
      · subst hx; decide
      · simpa using hp.2 x hx
    have hne : (k ++ '=' :: v).reverse ++ [] ≠ [] := by simp
    cases rest with
    | nil =>
      have := fieldsAux_append _ _ hfree [] []
      rw [List.append_nil] at this
      simp only [kvFragment, List.map]
      rw [this, fieldsAux, if_neg hne]
      simp
    | cons q rest =>
      have ih' := ih (fun p hp' => h p (by simp [hp']))
      have e : kvFragment ((k, v) :: q :: rest) = (k ++ '=' :: v) ++ ',' :: kvFragment (q :: rest) := by
        simp [kvFragment]
      rw [e, fieldsAux_append _ _ hfree, fieldsAux]
      simp only [beq_self_eq_true, if_true, if_neg hne]
      rw [ih']
      simp

theorem kvValue_of_Atoi_some {v : Str} {n : Int} (h : Atoi v = some n) :
    kvValue v = Value.int n := by
  unfold Atoi at h
  unfold kvValue
  cases hd : decimal v with
  | none => rw [hd] at h; simp at h
  | some d =>
    rw [hd] at h
    simp only at h ⊢
    split_ifs at h ⊢ with hr
    simp only [Option.some.injEq] at h
    rw [h]

theorem kvValue_of_Atoi_none {v : Str} (h : Atoi v = none) : kvValue v = Value.str v := by
  unfold Atoi at h
  unfold kvValue
  cases hd : decimal v with
  | none => rfl
  | some d =>
    rw [hd] at h
    simp only at h ⊢
    split_ifs at h ⊢ with hr
    rfl

theorem uhmarshalAux_pairs : ∀ (kvs : List (Str × Str)),
    (∀ p ∈ kvs, (∀ x ∈ p.1, x ≠ '=') ∧ (∀ x ∈ p.2, x ≠ '=')) →
    ∀ m : GoMap, ∃ m', uhmarshalAux (kvs.map (fun p => p.1 ++ '=' :: p.2)) m = Res.ok m' ∧
      ∀ key, mapGet m' key =
        match lastValue kvs key with
        | some w => some (kvValue w)
        | none => mapGet m key := by
  intro kvs
  induction kvs with
  | nil => intro _ m; exact ⟨m, rfl, fun key => rfl⟩
  | cons p rest ih =>
    intro h m
    obtain ⟨k, v⟩ := p
    have hp := h (k, v) (by simp)
    have hstep : uhmarshalAux (((k, v) :: rest).map (fun p => p.1 ++ '=' :: p.2)) m =
        uhmarshalAux (rest.map (fun p => p.1 ++ '=' :: p.2)) (mapSet m k (kvValue v)) := by
      simp only [List.map, uhmarshalAux, Split_kv k v hp.1 hp.2]
      cases hA : Atoi v with
      | none => simp only [kvValue_of_Atoi_none hA]
      | some n => simp only [kvValue_of_Atoi_some hA]
    obtain ⟨m', hm', hget⟩ := ih (fun p hp' => h p (by simp [hp'])) (mapSet m k (kvValue v))
    refine ⟨m', by rw [hstep, hm'], fun key => ?_⟩
    rw [hget key]
    simp only [lastValue]
    cases hl : lastValue rest key with
    | some w => rfl
    | none =>
      by_cases hk : k = key
      · subst hk
        simp [mapGet_mapSet_self]
      · simp [hk, mapGet_mapSet_ne _ _ _ _ (Ne.symm hk)]

/-- C9, as stated: the value `99999999999999999999` is a decimal integer, yet
`uhmarshal` keeps it as a string, because `Atoi` rejects what does not fit an
`int`; and on the fragment `CITY-S=1`, which is not JSON, `unwrap` returns a map
with the key `CITY_S` where `uhmarshal` returns one with the key `CITY-S`. -/
theorem uhmarshal_unwrap_claim_fails :
    (decimal "99999999999999999999".toList = some 99999999999999999999 ∧
      uhmarshal "k=99999999999999999999".toList =
        Res.ok [("k".toList, Value.str "99999999999999999999".toList)]) ∧
    (uhmarshal "CITY-S=1".toList = Res.ok [("CITY-S".toList, Value.int 1)] ∧
      ∀ J : Json, jsonPath J (rewrite "CITY-S=1".toList) = none →
        unwrap J "CITY-S=1".toList = Res.ok (Value.obj [("CITY_S".toList, Value.int 1)])) := by
  refine ⟨⟨by decide, rfl⟩, rfl, fun J hJ => ?_⟩
  unfold unwrap
  rw [hJ]
  rfl

/-- C9, amended: on a fragment `k1=v1,...,kn=vn` whose keys and values contain no
`,` and no `=`, `uhmarshal` returns without error the map that sends each key to
the value of its last pair, stored as an integer when the value text is an
optionally signed decimal within the range of a 64-bit `int` and as the string
otherwise; `unwrap` returns the same map when its JSON decoding fails and its
two rewrites (`CITY-S` to `CITY_S`, `LINE#` to `LINENUM`) leave the fragment
unchanged. So `key=value,key2=5` yields key ↦ string `value`, key2 ↦ integer 5. -/
theorem uhmarshal_kvFragment (kvs : List (Str × Str))
    (hwf : ∀ p ∈ kvs, (∀ x ∈ p.1, x ≠ ',' ∧ x ≠ '=') ∧ (∀ x ∈ p.2, x ≠ ',' ∧ x ≠ '=')) :
    (∃ m, uhmarshal (kvFragment kvs) = Res.ok m ∧
      (∀ k, mapGet m k = (lastValue kvs k).map kvValue) ∧
      (∀ J : Json, jsonPath J (kvFragment kvs) = none →
        rewrite (kvFragment kvs) = kvFragment kvs →
        unwrap J (kvFragment kvs) = Res.ok (Value.obj m))) ∧
    uhmarshal "key=value,key2=5".toList =
      Res.ok [("key".toList, Value.str "value".toList), ("key2".toList, Value.int 5)] := by
  refine ⟨?_, rfl⟩
  have h1 : ∀ p ∈ kvs, (∀ x ∈ p.1, x ≠ ',') ∧ (∀ x ∈ p.2, x ≠ ',') :=
    fun p hp => ⟨fun x hx => ((hwf p hp).1 x hx).1, fun x hx => ((hwf p hp).2 x hx).1⟩
  have h2 : ∀ p ∈ kvs, (∀ x ∈ p.1, x ≠ '=') ∧ (∀ x ∈ p.2, x ≠ '=') :=
    fun p hp => ⟨fun x hx => ((hwf p hp).1 x hx).2, fun x hx => ((hwf p hp).2 x hx).2⟩
  obtain ⟨m, hm, hget⟩ := uhmarshalAux_pairs kvs h2 []
  have hu : uhmarshal (kvFragment kvs) = Res.ok m := by
    unfold uhmarshal
    rw [FieldsFunc_kvFragment kvs h1, hm]
  refine ⟨m, hu, fun k => ?_, fun J hJ hrw => ?_⟩
  · rw [hget k]
    cases lastValue kvs k <;> rfl
  · unfold unwrap
    rw [hrw, hJ]
    simp only [hu, Res.bind_ok]

theorem uhmarshal_kvFragment_witness :
    ∃ m, uhmarshal "key=value,key2=5".toList = Res.ok m ∧
      mapGet m "key".toList = some (Value.str "value".toList) ∧
      mapGet m "key2".toList = some (Value.int 5) ∧
      unwrap noJson "key=value,key2=5".toList = Res.ok (Value.obj m) := by
  obtain ⟨m, hm, hget, hun⟩ :=
    (uhmarshal_kvFragment [("key".toList, "value".toList), ("key2".toList, "5".toList)]
      (by decide)).1
  exact ⟨m, hm, hget "key".toList, hget "key2".toList, hun noJson rfl rfl⟩

/-! ## Error records -/

theorem mapGet_eq_none_of_not_mem {V : Type} (m : List (Str × V)) (k : Str)
    (h : k ∉ m.map Prod.fst) : mapGet m k = none := by
  induction m with
  | nil => rfl
  | cons e t ih =>
    obtain ⟨k', v'⟩ := e
    simp only [List.map, List.mem_cons, not_or] at h
    simp only [mapGet, if_neg (Ne.symm h.1)]
    exact ih h.2

theorem mapGet_mergeInto : ∀ (m : GoMap), (m.map Prod.fst).Nodup → ∀ (acc : GoMap) (k : Str),
    mapGet (mergeInto acc m) k =
      match mapGet m k with
      | some v => some v
      | none => mapGet acc k := by
  intro m
  induction m with
  | nil => intro _ acc k; rfl
  | cons e t ih =>
    intro hnd acc k
    obtain ⟨k', v'⟩ := e
    simp only [List.map, List.nodup_cons] at hnd
    have hstep : mergeInto acc ((k', v') :: t) = mergeInto (mapSet acc k' v') t := rfl
    rw [hstep, ih hnd.2]
    by_cases hk : k' = k
    · subst hk
      simp [mapGet, mapGet_eq_none_of_not_mem t k' hnd.1, mapGet_mapSet_self]
    · simp only [mapGet, if_neg hk]
      cases mapGet t k with
      | some v => rfl
      | none => exact mapGet_mapSet_ne _ _ _ _ (Ne.symm hk)

theorem parseErrorLoop_spec (J : Json) : ∀ (fs : List Str) (ms : List GoMap),
    List.Forall₂ (fun f m => unwrap J f = Res.ok (Value.obj m)) fs ms →
    (∀ m ∈ ms, (m.map Prod.fst).Nodup) →
    ∀ acc : GoMap, ∃ message, parseErrorLoop J fs acc = Res.ok message ∧
      ∀ k, mapGet message k =
        match unionGet ms k with
        | some v => some v
        | none => mapGet acc k := by
  intro fs ms h
  induction h with
  | nil => intro _ acc; exact ⟨acc, rfl, fun k => rfl⟩
  | @cons f m fs ms hfm _ ih =>
    intro hnd acc
    obtain ⟨message, hmsg, hget⟩ :=
      ih (fun m' hm' => hnd m' (by simp [hm'])) (mergeInto acc m)
    refine ⟨message, ?_, fun k => ?_⟩
    · simp only [parseErrorLoop, hfm, Res.bind_ok, asMap]
      exact hmsg
    · rw [hget k, mapGet_mergeInto m (hnd m (by simp))]
      simp only [unionGet]
      cases unionGet ms k <;> rfl

theorem unionGet_ne_none : ∀ (ms : List GoMap) (m : GoMap) (k : Str), m ∈ ms →
    mapGet m k ≠ none → unionGet ms k ≠ none := by
  intro ms
  induction ms with
  | nil => intro m k hm; simp at hm
  | cons m0 rest ih =>
    intro m k hm hk
    simp only [unionGet]
    cases hu : unionGet rest k with
    | some v => simp
    | none =>
      simp only
      rcases List.mem_cons.1 hm with rfl | hm'
      · exact hk
      · exact absurd hu (ih m k hm' hk)

/-- C10: for an error payload `header|f1|...|fn` (n ≥ 1) whose header has 3 comma
fields and whose fragments `unwrap` decodes to the maps `m1, ..., mn`, `parseError`
returns an Error record whose CommandType, LogTime and LengthHex are header fields
1, 2 and 3 and whose Message is the right-biased union of `m1, ..., mn`: each key
carries the value of the last fragment that has it, and every key of every
fragment is present. -/
theorem parseError_merges (J : Json) (payload : Str) (ms : List GoMap)
    (hparts : 2 ≤ (Split payload ['|']).length)
    (hheader : (Split (field (Split payload ['|']) 0) [',']).length = 3)
    (hdec : List.Forall₂ (fun f m => unwrap J f = Res.ok (Value.obj m))
      ((Split payload ['|']).drop 1) ms)
    (hnodup : ∀ m ∈ ms, (m.map Prod.fst).Nodup) :
    ∃ message,
      parseError J payload = Res.ok
        { CommandType := field (Split (field (Split payload ['|']) 0) [',']) 0,
          Command := { Error := some {
            LogTime := field (Split (field (Split payload ['|']) 0) [',']) 1,
            LengthHex := field (Split (field (Split payload ['|']) 0) [',']) 2,
            Message := message } } } ∧
      (∀ k, mapGet message k = unionGet ms k) ∧
      (∀ m ∈ ms, ∀ k, mapGet m k ≠ none → mapGet message k ≠ none) := by
  obtain ⟨message, hmsg, hget⟩ := parseErrorLoop_spec J _ ms hdec hnodup []
  have hget' : ∀ k, mapGet message k = unionGet ms k := by
    intro k
    rw [hget k]
    cases unionGet ms k <;> rfl
  refine ⟨message, ?_, hget', fun m hm k hk => ?_⟩
  · unfold parseError
    have hp : ¬ (Split payload ['|']).length < 2 := by omega
    simp only [hp, if_false, index_of_lt (show 0 < (Split payload ['|']).length by omega),
      Res.bind_ok, hheader, ne_eq, not_true_eq_false,
      index_of_lt (show 0 < (Split (field (Split payload ['|']) 0) [',']).length by omega),
      index_of_lt (show 1 < (Split (field (Split payload ['|']) 0) [',']).length by omega),
      index_of_lt (show 2 < (Split (field (Split payload ['|']) 0) [',']).length by omega),
      hmsg]
  · rw [hget' k]
    exact unionGet_ne_none ms m k hm hk

theorem parseError_merges_witness :
    ∃ message,
      parseError noJson "error,13:42:56.960,0000016A|a=1,b=x|b=2".toList = Res.ok
        { CommandType := "error".toList,
          Command := { Error := some {
            LogTime := "13:42:56.960".toList,
            LengthHex := "0000016A".toList,
            Message := message } } } ∧
      mapGet message "a".toList = some (Value.int 1) ∧
      mapGet message "b".toList = some (Value.int 2) := by
  obtain ⟨message, h, hget, _⟩ := parseError_merges noJson
    "error,13:42:56.960,0000016A|a=1,b=x|b=2".toList
    [[("a".toList, Value.int 1), ("b".toList, Value.str "x".toList)],
     [("b".toList, Value.int 2)]]
    (by decide) (by decide)
    (List.Forall₂.cons rfl (List.Forall₂.cons rfl List.Forall₂.nil))
    (by decide)
  exact ⟨message, h, hget "a".toList, hget "b".toList⟩

/-! ## When the key=value decoder fails -/

theorem splitAux_single_ne_nil (c : Char) (s : Str) : splitAux [c] 0 s ≠ [] := by
  induction s with
  | nil => simp [splitAux]
  | cons x t ih =>
    rw [splitAux_single]
    split_ifs
    · simp
    · cases h : splitAux [c] 0 t with
      | nil => exact absurd h ih
      | cons a r => simp [consHead]

theorem length_consHead (x : Char) (l : List Str) (h : l ≠ []) :
    (consHead x l).length = l.length := by
  cases l with
  | nil => exact absurd rfl h
  | cons a r => rfl

theorem length_Split_single (c : Char) (s : Str) :
    (Split s [c]).length = s.count c + 1 := by
  unfold Split
  induction s with
  | nil => rfl
  | cons x t ih =>
    rw [splitAux_single]
    by_cases h : x = c
    · subst h
      simp [ih]
    · rw [if_neg h, length_consHead _ _ (splitAux_single_ne_nil c t), ih,
        List.count_cons_of_ne (fun e => h e.symm)]

theorem fieldsAux_eq_filter (c : Char) : ∀ (s cur : Str),
    fieldsAux (fun x => x == c) cur s =
      ((splitAux [c] 0 s).modifyHead (fun h => cur.reverse ++ h)).filter (fun p => p ≠ []) := by
  intro s
  induction s with
  | nil =>
    intro cur
    by_cases hc : cur = []
    · simp [fieldsAux, splitAux, hc]
    · simp [fieldsAux, splitAux, hc]
  | cons x t ih =>
    intro cur
    rw [splitAux_single, fieldsAux]
    by_cases h : x = c
    · subst h
      have h0 := ih []
      simp only [List.reverse_nil, List.nil_append] at h0
      have hid : (splitAux [x] 0 t).modifyHead (fun h => h) = splitAux [x] 0 t := by
        cases splitAux [x] 0 t <;> rfl
      rw [hid] at h0
      by_cases hc : cur = []
      · simp [hc, h0]
      · simp [hc, h0]
    · have hx : (x == c) = false := by simpa using h
      simp only [hx, Bool.false_eq_true, if_false, if_neg h]
      rw [ih (x :: cur)]
      cases hs : splitAux [c] 0 t with
      | nil => exact absurd hs (splitAux_single_ne_nil c t)
      | cons a r => simp [consHead]

theorem FieldsFunc_eq_filter_Split (c : Char) (s : Str) :
    FieldsFunc s (fun x => x == c) = (Split s [c]).filter (fun p => p ≠ []) := by
  unfold FieldsFunc Split
  rw [fieldsAux_eq_filter]
  cases splitAux [c] 0 s <;> simp

theorem uhmarshalAux_err_iff : ∀ (ps : List Str) (output : GoMap),
    (uhmarshalAux ps output = Res.err ↔ ∃ p ∈ ps, (Split p ['=']).length ≠ 2) ∧
      uhmarshalAux ps output ≠ Res.panic := by
  intro ps
  induction ps with
  | nil => intro output; simp [uhmarshalAux]
  | cons p rest ih =>
    intro output
    by_cases hl : (Split p ['=']).length = 2
    · obtain ⟨k, v, hkv⟩ := List.length_eq_two.1 hl
      simp only [uhmarshalAux, hkv]
      cases Atoi v with
      | none =>
        have := ih (mapSet output k (Value.str v))
        simp [this.1, this.2, hkv]
      | some n =>
        have := ih (mapSet output k (Value.int n))
        simp [this.1, this.2, hkv]
    · have hne : uhmarshalAux (p :: rest) output = Res.err := by
        unfold uhmarshalAux
        split
        · rename_i k v hkv
          rw [hkv] at hl
          exact absurd rfl hl
        · rfl
      rw [hne]
      exact ⟨⟨fun _ => ⟨p, by simp, hl⟩, fun _ => rfl⟩, by simp⟩

/-- C19: `uhmarshal` returns an error exactly when some non-empty piece of its
input between commas does not contain exactly one `=`; it never panics; the
pieces it decodes are the non-empty ones (empty pieces, from consecutive, leading
or trailing commas, are dropped); and the empty input decodes to the empty map. -/
theorem uhmarshal_error_iff (m : Str) :
    (uhmarshal m = Res.err ↔ ∃ p ∈ Split m [','], p ≠ [] ∧ p.count '=' ≠ 1) ∧
    uhmarshal m ≠ Res.panic ∧
    FieldsFunc m (fun c => c == ',') = (Split m [',']).filter (fun p => p ≠ []) ∧
    uhmarshal [] = Res.ok [] := by
  refine ⟨?_, (uhmarshalAux_err_iff _ _).2, FieldsFunc_eq_filter_Split ',' m, rfl⟩
  unfold uhmarshal
  rw [(uhmarshalAux_err_iff _ _).1, FieldsFunc_eq_filter_Split]
  constructor
  · rintro ⟨p, hp, hlen⟩
    simp only [List.mem_filter, decide_eq_true_eq] at hp
    refine ⟨p, hp.1, hp.2, ?_⟩
    rw [length_Split_single] at hlen
    omega
  · rintro ⟨p, hp, hne, hcount⟩
    refine ⟨p, ?_, ?_⟩
    · simp only [List.mem_filter, decide_eq_true_eq]
      exact ⟨hp, hne⟩
    · rw [length_Split_single]
      omega

/-! ## The header of request and response payloads -/

/-- C15: `parseResponse` does not check the number of header fields. On a header
of 2 fields, and on one of 3 fields with a valid client quad, it stops with a
run-time panic instead of returning an error; a header of 5 fields is accepted,
and LengthHex is then field 4, not the last field. -/
theorem parseResponse_header_arity_unchecked (J : Json) :
    parseResponse J "response,10:51:02.620|x=1".toList = Res.panic ∧
    parseResponse J "response,10:51:02.620,363776339/192.168.48.45/52401/414|x=1".toList =
      Res.panic ∧
    parseResponse J
        "response,10:51:02.620,363776339/192.168.48.45/52401/414,00000BDF,extra|x=1".toList =
      Res.ok
        { CommandType := "response".toList,
          Command := { Response := some {
            LogTime := "10:51:02.620".toList,
            Client := some { Message := 363776339, IP := "192.168.48.45".toList,
                             Port := 52401, Socket := 414 },
            LengthHex := "00000BDF".toList,
            Message := [("header".toList, Value.obj [("x".toList, Value.int 1)])] } } } := by
  exact ⟨rfl, rfl, rfl⟩

/-! ## The tracer registry -/

theorem getOrMakeTracer_of_found (ls : LightStep) (hostname component : Str) (t : Nat)
    (h : mapGet ls.tracers (hostname ++ [':'] ++ component) = some (some t)) :
    getOrMakeTracer ls hostname component = (ls, some t) := by
  simp only [getOrMakeTracer, h]

theorem getOrMakeTracer_of_not_found (ls : LightStep) (hostname component : Str)
    (h : ∀ t, mapGet ls.tracers (hostname ++ [':'] ++ component) ≠ some (some t)) :
    getOrMakeTracer ls hostname component =
      ({ ls with
          tracers := mapSet ls.tracers (hostname ++ [':'] ++ component)
            (if ls.newTracer hostname component then some ls.created else none),
          created := ls.created + 1 },
        if ls.newTracer hostname component then some ls.created else none) := by
  cases hm : mapGet ls.tracers (hostname ++ [':'] ++ component) with
  | none => simp only [getOrMakeTracer, hm]
  | some o =>
    cases o with
    | none => simp only [getOrMakeTracer, hm]
    | some tr => exact absurd hm (h tr)

theorem getOrMakeTracer_keeps (ls : LightStep) (hostname component guid : Str) (t : Nat)
    (h : mapGet ls.tracers guid = some (some t)) :
    mapGet (getOrMakeTracer ls hostname component).1.tracers guid = some (some t) := by
  by_cases hf : ∃ tr, mapGet ls.tracers (hostname ++ [':'] ++ component) = some (some tr)
  · obtain ⟨tr, htr⟩ := hf
    rw [getOrMakeTracer_of_found ls hostname component tr htr]
    exact h
  · have hnot : ∀ tr, mapGet ls.tracers (hostname ++ [':'] ++ component) ≠ some (some tr) :=
      fun tr e => hf ⟨tr, e⟩
    have hne : guid ≠ hostname ++ [':'] ++ component := by
      intro e
      rw [e] at h
      exact hnot t h
    rw [getOrMakeTracer_of_not_found ls hostname component hnot]
    simp only
    rw [mapGet_mapSet_ne _ _ _ _ hne]
    exact h

theorem getOrMakeTracer_stores (ls : LightStep) (hostname component : Str) (t : Nat)
    (h : (getOrMakeTracer ls hostname component).2 = some t) :
    mapGet (getOrMakeTracer ls hostname component).1.tracers
      (hostname ++ [':'] ++ component) = some (some t) := by
  by_cases hf : ∃ tr, mapGet ls.tracers (hostname ++ [':'] ++ component) = some (some tr)
  · obtain ⟨tr, htr⟩ := hf
    rw [getOrMakeTracer_of_found ls hostname component tr htr] at h ⊢
    simp only [Option.some.injEq] at h
    rw [← h]
    exact htr
  · have hnot : ∀ tr, mapGet ls.tracers (hostname ++ [':'] ++ component) ≠ some (some tr) :=
      fun tr e => hf ⟨tr, e⟩
    rw [getOrMakeTracer_of_not_found ls hostname component hnot] at h ⊢
    simp only at h ⊢
    rw [mapGet_mapSet_self, h]

theorem runOps_keeps (guid : Str) (t : Nat) : ∀ (ops : List RegistryOp) (ls : LightStep),
    mapGet ls.tracers guid = some (some t) →
    mapGet (runOps ls ops).tracers guid = some (some t) := by
  intro ops
  induction ops with
  | nil => intro ls h; exact h
  | cons op rest ih =>
    intro ls h
    cases op with
    | get hostname component =>
      exact ih _ (getOrMakeTracer_keeps ls hostname component guid t h)
    | close => exact ih _ h

/-- C17: in the sequential model of the registry, once
`getOrMakeTracer(hostname, component)` has returned a tracer, a later call with
the same hostname and component, after any sequence of `getOrMakeTracer` and
`CloseAsync` calls, returns that same tracer and leaves the state as it is (no
tracer is created); `CloseAsync` changes neither the registry nor the number of
tracers created. -/
theorem getOrMakeTracer_stable (ls : LightStep) (hostname component : Str) (t : Nat)
    (ops : List RegistryOp)
    (h : (getOrMakeTracer ls hostname component).2 = some t) :
    getOrMakeTracer (runOps (getOrMakeTracer ls hostname component).1 ops) hostname component =
      (runOps (getOrMakeTracer ls hostname component).1 ops, some t) ∧
    (∀ ls0 : LightStep, (CloseAsync ls0).tracers = ls0.tracers ∧
      (CloseAsync ls0).created = ls0.created) := by
  refine ⟨?_, fun ls0 => ⟨rfl, rfl⟩⟩
  exact getOrMakeTracer_of_found _ _ _ _
    (runOps_keeps _ t ops _ (getOrMakeTracer_stores ls hostname component t h))

theorem getOrMakeTracer_stable_witness :
    getOrMakeTracer
        (runOps (getOrMakeTracer {} "host".toList "atlas".toList).1
          [RegistryOp.get "other".toList "atlas".toList, RegistryOp.close])
        "host".toList "atlas".toList =
      (runOps (getOrMakeTracer {} "host".toList "atlas".toList).1
          [RegistryOp.get "other".toList "atlas".toList, RegistryOp.close], some 0) :=
  (getOrMakeTracer_stable {} "host".toList "atlas".toList 0
    [RegistryOp.get "other".toList "atlas".toList, RegistryOp.close] rfl).1

/-! ## Eligibility of a record for a span -/

/-- C12: on a Response record whose Message has no `header` entry (absent or
null), or whose header map has no `duration` key or a null one, the body of
`Write` returns no error and leaves the state as it is: no span is started and no
tracer is created; so does `Write` on a message made of that one record. -/
theorem writePart_not_eligible (range : GoMap → List (Str × Value))
    (parseDuration : Str → Option Int) (ls : LightStep) (atl : AtlasLog)
    (resp : AtlasReqResp)
    (hresp : atl.Command.Response = some resp)
    (h : mapGet resp.Message "header".toList = none ∨
      mapGet resp.Message "header".toList = some Value.null ∨
      ∃ header, mapGet resp.Message "header".toList = some (Value.obj header) ∧
        (mapGet header "duration".toList = none ∨
          mapGet header "duration".toList = some Value.null)) :
    writePart range parseDuration ls atl = Res.ok ls ∧
    ∀ (J : Json) (p : Str), J.unmarshalLog p = some atl →
      Write J range parseDuration ls [p] = Res.ok ls := by
  have hw : writePart range parseDuration ls atl = Res.ok ls := by
    unfold writePart
    by_cases hu : atl.Command.Unparsed ≠ []
    · rw [if_pos hu]
    · rw [if_neg hu]
      rcases h with h | h | ⟨header, hh, hd | hd⟩
      · simp only [hresp, h]
      · simp only [hresp, h]
      · simp only [hresp, hh, asMap, Res.bind_ok, hd]
      · simp only [hresp, hh, asMap, Res.bind_ok, hd]
  refine ⟨hw, fun J p hp => ?_⟩
  simp only [Write, hp, hw, Res.bind_ok]

theorem writePart_not_eligible_witness :
    writePart id (fun _ => some 1) {}
      { CommandType := "response".toList,
        Command := { Response := some {
          LogTime := [], Client := none, LengthHex := [],
          Message := [("header".toList, Value.obj [("uid".toList, Value.str "abc".toList)])] } } } =
      Res.ok {} :=
  (writePart_not_eligible id (fun _ => some 1) {}
    { CommandType := "response".toList,
      Command := { Response := some {
        LogTime := [], Client := none, LengthHex := [],
        Message := [("header".toList, Value.obj [("uid".toList, Value.str "abc".toList)])] } } }
    { LogTime := [], Client := none, LengthHex := [],
      Message := [("header".toList, Value.obj [("uid".toList, Value.str "abc".toList)])] }
    rfl (Or.inr (Or.inr ⟨_, rfl, Or.inl rfl⟩))).1

/-! ## Tags of a span -/

theorem mem_of_mapGet {V : Type} : ∀ (m : List (Str × V)) (k : Str) (v : V),
    mapGet m k = some v → (k, v) ∈ m := by
  intro m
  induction m with
  | nil => intro k v h; simp [mapGet] at h
  | cons e t ih =>
    intro k v h
    obtain ⟨k', v'⟩ := e
    by_cases hk : k' = k
    · subst hk
      simp only [mapGet, if_true, Option.some.injEq] at h
      subst h
      simp
    · simp only [mapGet, if_neg hk] at h
      exact List.mem_cons_of_mem _ (ih k v h)

theorem not_mem_keys_of_mapGet_none {V : Type} : ∀ (m : List (Str × V)) (k : Str),
    mapGet m k = none → ∀ v, (k, v) ∉ m := by
  intro m
  induction m with
  | nil => intro k _ v; simp
  | cons e t ih =>
    intro k h v
    obtain ⟨k', v'⟩ := e
    by_cases hk : k' = k
    · subst hk
      simp [mapGet] at h
    · simp only [mapGet, if_neg hk] at h
      simp only [List.mem_cons, Prod.mk.injEq, not_or, not_and]
      exact ⟨fun e => absurd e.symm hk, ih k h v⟩

theorem value_unique_of_nodup {V : Type} : ∀ (m : List (Str × V)) (k : Str) (v w : V),
    (m.map Prod.fst).Nodup → (k, v) ∈ m → (k, w) ∈ m → v = w := by
  intro m
  induction m with
  | nil => intro k v w _ h; simp at h
  | cons e t ih =>
    intro k v w hnd hv hw
    simp only [List.map, List.nodup_cons] at hnd
    have hkey : ∀ x, (k, x) ∈ t → k ∈ t.map Prod.fst := fun x hx =>
      List.mem_map.2 ⟨(k, x), hx, rfl⟩
    rcases List.mem_cons.1 hv with hv | hv <;> rcases List.mem_cons.1 hw with hw | hw
    · rw [← hv] at hw
      exact (Prod.mk.inj hw).2.symm
    · rw [← hv] at hnd
      exact absurd (hkey w hw) hnd.1
    · rw [← hw] at hnd
      exact absurd (hkey v hv) hnd.1
    · exact ih k v w hnd.2 hv hw

theorem headerTags_cons (k : Str) (v : Value) (rest : List (Str × Value)) (tags : GoMap) :
    headerTags ((k, v) :: rest) tags =
      headerTags rest
        (match headerTagName k with
          | none => tags
          | some n => mapSet tags n v) := by
  unfold headerTagName
  rw [headerTags]
  split_ifs <;> rfl

theorem headerTags_untouched (T : Str) : ∀ (es : List (Str × Value)) (tags : GoMap),
    (∀ kv ∈ es, headerTagName kv.1 ≠ some T) →
    mapGet (headerTags es tags) T = mapGet tags T := by
  intro es
  induction es with
  | nil => intro tags _; rfl
  | cons e rest ih =>
    intro tags h
    obtain ⟨k, v⟩ := e
    rw [headerTags_cons, ih _ (fun kv hkv => h kv (List.mem_cons_of_mem _ hkv))]
    have hk := h (k, v) (by simp)
    cases hn : headerTagName k with
    | none => rfl
    | some n =>
      simp only
      exact mapGet_mapSet_ne _ _ _ _ (fun e => hk (by rw [hn, e]))

theorem headerTags_written (T k : Str) (v : Value) (hname : headerTagName k = some T) :
    ∀ (es : List (Str × Value)) (tags : GoMap),
    (es.map Prod.fst).Nodup → (k, v) ∈ es →
    (∀ kv ∈ es, kv.1 ≠ k → headerTagName kv.1 ≠ some T) →
    mapGet (headerTags es tags) T = some v := by
  intro es
  induction es with
  | nil => intro tags _ h; simp at h
  | cons e rest ih =>
    intro tags hnd hmem hothers
    obtain ⟨k0, v0⟩ := e
    rw [headerTags_cons]
    have hnd' := hnd
    simp only [List.map, List.nodup_cons] at hnd'
    by_cases hk : k0 = k
    · subst hk
      have hv : v0 = v := value_unique_of_nodup _ k0 v0 v hnd (by simp) hmem
      subst hv
      rw [hname]
      simp only
      rw [headerTags_untouched T rest _ (fun kv hkv => hothers kv (List.mem_cons_of_mem _ hkv)
        (fun e => hnd'.1 (List.mem_map.2 ⟨kv, hkv, e⟩)))]
      exact mapGet_mapSet_self _ _ _
    · have hmem' : (k, v) ∈ rest := by
        rcases List.mem_cons.1 hmem with h | h
        · exact absurd (Prod.mk.inj h).1.symm hk
        · exact h
      exact ih _ hnd'.2 hmem' (fun kv hkv => hothers kv (List.mem_cons_of_mem _ hkv))

theorem commandTags_untouched (msg T : Str) (hT : ∀ k, msg ++ ['.'] ++ k ≠ T) :
    ∀ (es : List (Str × Value)) (tags : GoMap),
    mapGet (commandTags msg es tags) T = mapGet tags T := by
  intro es
  induction es with
  | nil => intro tags; rfl
  | cons e rest ih =>
    intro tags
    obtain ⟨k, v⟩ := e
    cases v <;> simp only [commandTags, ih]
    · exact mapGet_mapSet_ne _ _ _ _ (fun e => hT k e.symm)
    · exact mapGet_mapSet_ne _ _ _ _ (fun e => hT k e.symm)

theorem dotted_ne (msg k T : Str) (hT : '.' ∉ T) : msg ++ ['.'] ++ k ≠ T := by
  intro e
  apply hT
  rw [← e]
  simp

theorem messageTags_untouched (range : GoMap → List (Str × Value)) (T : Str)
    (hT : '.' ∉ T) : ∀ (es : List (Str × Value)) (tags tags' : GoMap),
    (∀ kv ∈ es, kv.1 ≠ "header".toList) →
    messageTags range es tags = Res.ok tags' →
    mapGet tags' T = mapGet tags T := by
  intro es
  induction es with
  | nil =>
    intro tags tags' _ h
    simp only [messageTags, Res.ok.injEq] at h
    rw [h]
  | cons e rest ih =>
    intro tags tags' hno h
    obtain ⟨msg, v⟩ := e
    have hmsg : msg ≠ "header".toList := hno (msg, v) (by simp)
    simp only [messageTags, Res.bind_eq_ok, if_neg hmsg] at h
    obtain ⟨m, _, h⟩ := h
    rw [ih _ _ (fun kv hkv => hno kv (List.mem_cons_of_mem _ hkv)) h]
    exact commandTags_untouched msg T (fun k => dotted_ne msg k T hT) _ _

theorem messageTags_header (range : GoMap → List (Str × Value)) (T : Str)
    (hT : '.' ∉ T) (header : GoMap) (F : Option Value → Option Value)
    (hF : ∀ tags, mapGet (headerTags (range header) tags) T = F (mapGet tags T)) :
    ∀ (es : List (Str × Value)) (tags tags' : GoMap),
    (es.map Prod.fst).Nodup → ("header".toList, Value.obj header) ∈ es →
    messageTags range es tags = Res.ok tags' →
    mapGet tags' T = F (mapGet tags T) := by
  intro es
  induction es with
  | nil => intro tags tags' _ h; simp at h
  | cons e rest ih =>
    intro tags tags' hnd hmem h
    obtain ⟨msg, v⟩ := e
    have hnd' := hnd
    simp only [List.map, List.nodup_cons] at hnd'
    simp only [messageTags, Res.bind_eq_ok] at h
    obtain ⟨m, hm, h⟩ := h
    by_cases hmsg : msg = "header".toList
    · subst hmsg
      have hv : v = Value.obj header :=
        value_unique_of_nodup _ _ v (Value.obj header) hnd (by simp) hmem
      subst hv
      simp only [asMap, Res.ok.injEq] at hm
      subst hm
      rw [if_pos rfl] at h
      rw [messageTags_untouched range T hT rest _ _
        (fun kv hkv e => hnd'.1 (List.mem_map.2 ⟨kv, hkv, e⟩)) h]
      exact hF tags
    · rw [if_neg hmsg] at h
      have hmem' : ("header".toList, Value.obj header) ∈ rest := by
        rcases List.mem_cons.1 hmem with h' | h'
        · exact absurd (Prod.mk.inj h').1.symm hmsg
        · exact h'
      rw [ih _ _ hnd'.2 hmem' h]
      congr 1
      exact commandTags_untouched msg T (fun k => dotted_ne msg k T hT) _ _

theorem getOrMakeTracer_spans (ls : LightStep) (hostname component : Str) :
    (getOrMakeTracer ls hostname component).1.spans = ls.spans := by
  unfold getOrMakeTracer
  simp only
  split <;> rfl

theorem writePart_eligible_ok (range : GoMap → List (Str × Value))
    (parseDuration : Str → Option Int) (ls ls' : LightStep) (atl : AtlasLog)
    (resp : AtlasReqResp) (header : GoMap) (dv : Value)
    (hunp : atl.Command.Unparsed = [])
    (hresp : atl.Command.Response = some resp)
    (hheader : mapGet resp.Message "header".toList = some (Value.obj header))
    (hdur : mapGet header "duration".toList = some dv) (hnull : dv ≠ Value.null)
    (hok : writePart range parseDuration ls atl = Res.ok ls') :
    ∃ ds d tracer client tags,
      dv = Value.str ds ∧ parseDuration (ds ++ ['s']) = some d ∧
      (getOrMakeTracer ls atl.Hostname "atlas".toList).2 = some tracer ∧
      resp.Client = some client ∧
      messageTags range (range resp.Message)
        (mapSet [] "client".toList (Value.str client.IP)) = Res.ok tags ∧
      ls'.spans = ls.spans ++
        [{ tracer := tracer, operationName := atl.CommandType, startTime := atl.Timestamp,
           finishTime := atl.Timestamp + d, tags := tags }] := by
  unfold writePart at hok
  have hsp := getOrMakeTracer_spans ls atl.Hostname "atlas".toList
  generalize getOrMakeTracer ls atl.Hostname "atlas".toList = lt at hok hsp ⊢
  simp only [hunp, ne_eq, not_true_eq_false, if_false, hresp, hheader, asMap, Res.bind_ok,
    hdur] at hok
  cases dv with
  | null => exact absurd rfl hnull
  | str ds =>
    simp only [asString, Res.bind_ok] at hok
    cases hd : parseDuration (ds ++ ['s']) with
    | none => simp [hd] at hok
    | some d =>
      cases ht : lt.2 with
      | none => simp [hd, ht] at hok
      | some tracer =>
        cases hc : resp.Client with
        | none => simp [hd, ht, hc] at hok
        | some client =>
          simp only [hd, ht, hc, Res.bind_eq_ok, Res.ok.injEq] at hok
          obtain ⟨tags, htags, hls⟩ := hok
          refine ⟨ds, d, tracer, client, tags, rfl, hd, rfl, rfl, htags, ?_⟩
          rw [← hls]
          simp only [hsp]
  | bool b => simp [asString] at hok
  | int i => simp [asString] at hok
  | float x => simp [asString] at hok
  | arr xs => simp [asString] at hok
  | obj m => simp [asString] at hok

theorem messageTags_ok_of_maps (range : GoMap → List (Str × Value)) :
    ∀ (es : List (Str × Value)) (tags : GoMap),
    (∀ kv ∈ es, ∃ m, kv.2 = Value.obj m) →
    ∃ tags', messageTags range es tags = Res.ok tags' := by
  intro es
  induction es with
  | nil => intro tags _; exact ⟨tags, rfl⟩
  | cons e rest ih =>
    intro tags h
    obtain ⟨msg, v⟩ := e
    obtain ⟨m, hm⟩ := h (msg, v) (by simp)
    have hv : v = Value.obj m := hm
    subst hv
    have hrest : ∀ kv ∈ rest, ∃ m, kv.2 = Value.obj m :=
      fun kv hkv => h kv (List.mem_cons_of_mem _ hkv)
    simp only [messageTags, asMap, Res.bind_ok]
    by_cases hmsg : msg = "header".toList
    · rw [if_pos hmsg]
      exact ih _ hrest
    · rw [if_neg hmsg]
      exact ih _ hrest

theorem writePart_eligible_produces (range : GoMap → List (Str × Value))
    (parseDuration : Str → Option Int) (ls : LightStep) (atl : AtlasLog)
    (resp : AtlasReqResp) (header : GoMap) (ds : Str) (d : Int) (tracer : Nat)
    (client : AtlasClientHeader)
    (hrange : ∀ m, (range m).Perm m)
    (hunp : atl.Command.Unparsed = [])
    (hresp : atl.Command.Response = some resp)
    (hheader : mapGet resp.Message "header".toList = some (Value.obj header))
    (hdur : mapGet header "duration".toList = some (Value.str ds))
    (hpd : parseDuration (ds ++ ['s']) = some d)
    (htracer : (getOrMakeTracer ls atl.Hostname "atlas".toList).2 = some tracer)
    (hclient : resp.Client = some client)
    (hmaps : ∀ kv ∈ resp.Message, ∃ m, kv.2 = Value.obj m) :
    ∃ ls', writePart range parseDuration ls atl = Res.ok ls' := by
  obtain ⟨tags, htags⟩ := messageTags_ok_of_maps range (range resp.Message)
    (mapSet [] "client".toList (Value.str client.IP))
    (fun kv hkv => hmaps kv ((hrange resp.Message).mem_iff.1 hkv))
  unfold writePart
  generalize getOrMakeTracer ls atl.Hostname "atlas".toList = lt at htracer ⊢
  simp only [hunp, ne_eq, not_true_eq_false, if_false, hresp, hheader, asMap, Res.bind_ok,
    hdur, asString, hpd, htracer, hclient]
  rw [htags]
  exact ⟨_, rfl⟩

theorem headerTagName_cases {k T : Str} (h : headerTagName k = some T) :
    (k = "uid".toList ∧ T = "guid:correlation_id".toList) ∨
      (k = "sid".toList ∧ T = "guid:sid".toList) ∨ k = T := by
  unfold headerTagName at h
  by_cases h1 : k = "duration".toList
  · rw [if_pos h1] at h
    exact absurd h (by simp)
  · rw [if_neg h1] at h
    by_cases h2 : k = "uid".toList
    · rw [if_pos h2] at h
      exact Or.inl ⟨h2, (Option.some.inj h).symm⟩
    · rw [if_neg h2] at h
      by_cases h3 : k = "sid".toList
      · rw [if_pos h3] at h
        exact Or.inr (Or.inl ⟨h3, (Option.some.inj h).symm⟩)
      · rw [if_neg h3] at h
        exact Or.inr (Or.inr (Option.some.inj h))

theorem headerTagName_ne_uid_sid (k : Str) :
    headerTagName k ≠ some "uid".toList ∧ headerTagName k ≠ some "sid".toList := by
  constructor
  · intro h
    rcases headerTagName_cases h with ⟨_, h'⟩ | ⟨_, h'⟩ | h'
    · exact absurd h' (by decide)
    · exact absurd h' (by decide)
    · rw [h'] at h
      exact absurd h (by decide)
  · intro h
    rcases headerTagName_cases h with ⟨_, h'⟩ | ⟨_, h'⟩ | h'
    · exact absurd h' (by decide)
    · exact absurd h' (by decide)
    · rw [h'] at h
      exact absurd h (by decide)

/-- C11, as stated: a header with `uid` = `abc` that also has a key named
`guid:correlation_id`, iterated in the order written, gives a span whose tag
`guid:correlation_id` is the value of that other key, `zzz`, not `abc`. -/
theorem writePart_uid_tag_overwritten :
    writePart id (fun _ => some 1) {}
      { CommandType := "response".toList,
        Hostname := "host".toList,
        Command := { Response := some {
          LogTime := [],
          Client := some { Message := 1, IP := "10.0.0.1".toList, Port := 2, Socket := 3 },
          LengthHex := [],
          Message := [("header".toList, Value.obj
            [("duration".toList, Value.str "1".toList),
             ("uid".toList, Value.str "abc".toList),
             ("sid".toList, Value.str "xyz".toList),
             ("guid:correlation_id".toList, Value.str "zzz".toList)])] } } } =
      Res.ok
        { tracers := [("host:atlas".toList, some 0)],
          created := 1,
          spans := [{ tracer := 0, operationName := "response".toList, startTime := 0,
                      finishTime := 1,
                      tags := [("client".toList, Value.str "10.0.0.1".toList),
                               ("guid:correlation_id".toList, Value.str "zzz".toList),
                               ("guid:sid".toList, Value.str "xyz".toList)] }] } := by
  rfl

/-- C11, amended: take an eligible Response record (the header is a map with a
duration) on which `Write` does not fail, that is, whose duration is a string
that `time.ParseDuration` accepts once `s` is appended, whose Client header is
present, whose tracer is not nil and whose top-level Message values are all maps.
If its header has `uid` = `u` and `sid` = `s` and has no key named
`guid:correlation_id` or `guid:sid`, then `Write` produces a span, and that span
has the tags `guid:correlation_id` = `u` and `guid:sid` = `s` and no tag named
`uid` or `sid`, whatever the other keys of the message and whatever the order in
which the maps are iterated. -/
theorem writePart_uid_sid_tags (range : GoMap → List (Str × Value))
    (parseDuration : Str → Option Int) (ls : LightStep) (atl : AtlasLog)
    (resp : AtlasReqResp) (header : GoMap) (ds : Str) (d : Int) (tracer : Nat)
    (client : AtlasClientHeader) (u s : Value)
    (hrange : ∀ m, (range m).Perm m)
    (hunp : atl.Command.Unparsed = [])
    (hresp : atl.Command.Response = some resp)
    (hnd : (resp.Message.map Prod.fst).Nodup)
    (hheader : mapGet resp.Message "header".toList = some (Value.obj header))
    (hndh : (header.map Prod.fst).Nodup)
    (hdur : mapGet header "duration".toList = some (Value.str ds))
    (hpd : parseDuration (ds ++ ['s']) = some d)
    (htracer : (getOrMakeTracer ls atl.Hostname "atlas".toList).2 = some tracer)
    (hclient : resp.Client = some client)
    (hmaps : ∀ kv ∈ resp.Message, ∃ m, kv.2 = Value.obj m)
    (huid : mapGet header "uid".toList = some u)
    (hsid : mapGet header "sid".toList = some s)
    (hfree1 : mapGet header "guid:correlation_id".toList = none)
    (hfree2 : mapGet header "guid:sid".toList = none) :
    ∃ ls' span, writePart range parseDuration ls atl = Res.ok ls' ∧
      ls'.spans = ls.spans ++ [span] ∧
      mapGet span.tags "guid:correlation_id".toList = some u ∧
      mapGet span.tags "guid:sid".toList = some s ∧
      mapGet span.tags "uid".toList = none ∧
      mapGet span.tags "sid".toList = none := by
  obtain ⟨ls', hok⟩ := writePart_eligible_produces range parseDuration ls atl resp header ds d
    tracer client hrange hunp hresp hheader hdur hpd htracer hclient hmaps
  obtain ⟨ds', d', tracer', client', tags, -, -, -, hcl', htags, hls⟩ :=
    writePart_eligible_ok range parseDuration ls ls' atl resp header (Value.str ds) hunp
      hresp hheader hdur (fun h => Value.noConfusion h) hok
  have hce : client = client' := Option.some.inj (hclient.symm.trans hcl')
  subst hce
  have hes : ((range resp.Message).map Prod.fst).Nodup :=
    ((hrange resp.Message).map Prod.fst).nodup_iff.2 hnd
  have hmem : ("header".toList, Value.obj header) ∈ range resp.Message :=
    (hrange resp.Message).mem_iff.2 (mem_of_mapGet _ _ _ hheader)
  have hhs : ((range header).map Prod.fst).Nodup :=
    ((hrange header).map Prod.fst).nodup_iff.2 hndh
  have hin : ∀ kv, kv ∈ range header → kv ∈ header := fun kv h => (hrange header).mem_iff.1 h
  have key : ∀ (T : Str) (F : Option Value → Option Value), '.' ∉ T →
      (∀ tg, mapGet (headerTags (range header) tg) T = F (mapGet tg T)) →
      mapGet tags T = F (mapGet (mapSet [] "client".toList (Value.str client.IP)) T) :=
    fun T F hT hF => messageTags_header range T hT header F hF _ _ _ hes hmem htags
  refine ⟨ls', _, hok, hls, ?_, ?_, ?_, ?_⟩
  · refine key _ (fun _ => some u) (by decide) (fun tg => ?_)
    refine headerTags_written _ "uid".toList u (by decide) _ tg hhs
      ((hrange header).mem_iff.2 (mem_of_mapGet _ _ _ huid)) (fun kv hkv hne hname => ?_)
    rcases headerTagName_cases hname with ⟨hk, _⟩ | ⟨_, hk⟩ | hk
    · exact hne hk
    · exact absurd hk (by decide)
    · exact not_mem_keys_of_mapGet_none _ _ hfree1 kv.2 (by rw [← hk]; exact hin kv hkv)
  · refine key _ (fun _ => some s) (by decide) (fun tg => ?_)
    refine headerTags_written _ "sid".toList s (by decide) _ tg hhs
      ((hrange header).mem_iff.2 (mem_of_mapGet _ _ _ hsid)) (fun kv hkv hne hname => ?_)
    rcases headerTagName_cases hname with ⟨_, hk⟩ | ⟨hk, _⟩ | hk
    · exact absurd hk (by decide)
    · exact hne hk
    · exact not_mem_keys_of_mapGet_none _ _ hfree2 kv.2 (by rw [← hk]; exact hin kv hkv)
  · rw [key _ id (by decide) (fun tg => headerTags_untouched _ _ tg
      (fun kv _ => (headerTagName_ne_uid_sid kv.1).1))]
    rfl
  · rw [key _ id (by decide) (fun tg => headerTags_untouched _ _ tg
      (fun kv _ => (headerTagName_ne_uid_sid kv.1).2))]
    rfl

theorem writePart_uid_sid_tags_witness :
    ∃ (ls' : LightStep) (span : Span),
      writePart id (fun _ => some 1) {}
        { CommandType := "response".toList,
          Hostname := "host".toList,
          Command := { Response := some {
            LogTime := [],
            Client := some { Message := 1, IP := "10.0.0.1".toList, Port := 2, Socket := 3 },
            LengthHex := [],
            Message := [("header".toList, Value.obj
              [("duration".toList, Value.str "1".toList),
               ("uid".toList, Value.str "abc".toList),
               ("sid".toList, Value.str "xyz".toList)])] } } } = Res.ok ls' ∧
      ls'.spans = [span] ∧
      mapGet span.tags "guid:correlation_id".toList = some (Value.str "abc".toList) ∧
      mapGet span.tags "guid:sid".toList = some (Value.str "xyz".toList) ∧
      mapGet span.tags "uid".toList = none ∧
      mapGet span.tags "sid".toList = none :=
  writePart_uid_sid_tags id (fun _ => some 1) {}
    { CommandType := "response".toList,
      Hostname := "host".toList,
      Command := { Response := some {
        LogTime := [],
        Client := some { Message := 1, IP := "10.0.0.1".toList, Port := 2, Socket := 3 },
        LengthHex := [],
        Message := [("header".toList, Value.obj
          [("duration".toList, Value.str "1".toList),
           ("uid".toList, Value.str "abc".toList),
           ("sid".toList, Value.str "xyz".toList)])] } } }
    { LogTime := [],
      Client := some { Message := 1, IP := "10.0.0.1".toList, Port := 2, Socket := 3 },
      LengthHex := [],
      Message := [("header".toList, Value.obj
        [("duration".toList, Value.str "1".toList),
         ("uid".toList, Value.str "abc".toList),
         ("sid".toList, Value.str "xyz".toList)])] }
    [("duration".toList, Value.str "1".toList),
     ("uid".toList, Value.str "abc".toList),
     ("sid".toList, Value.str "xyz".toList)]
    "1".toList 1 0
    { Message := 1, IP := "10.0.0.1".toList, Port := 2, Socket := 3 }
    (Value.str "abc".toList) (Value.str "xyz".toList)
    (fun m => List.Perm.refl m) rfl rfl (by decide) rfl (by decide) rfl rfl rfl rfl
    (fun kv hkv => by
      simp only [List.mem_singleton] at hkv
      subst hkv
      exact ⟨_, rfl⟩)
    rfl rfl rfl rfl

/-! ## Operation name and client tag -/

/-- C16, as stated: a header that has a key named `client` gives a span whose tag
`client` is the value of that key, `x`, not the IP address `10.0.0.1` of the
Client header. -/
theorem writePart_client_tag_overwritten :
    writePart id (fun _ => some 1) {}
      { CommandType := "response".toList,
        Hostname := "host".toList,
        Command := { Response := some {
          LogTime := [],
          Client := some { Message := 1, IP := "10.0.0.1".toList, Port := 2, Socket := 3 },
          LengthHex := [],
          Message := [("header".toList, Value.obj
            [("duration".toList, Value.str "1".toList),
             ("client".toList, Value.str "x".toList)])] } } } =
      Res.ok
        { tracers := [("host:atlas".toList, some 0)],
          created := 1,
          spans := [{ tracer := 0, operationName := "response".toList, startTime := 0,
                      finishTime := 1,
                      tags := [("client".toList, Value.str "x".toList)] }] } := by
  rfl

/-- C16, amended: take an eligible Response record (the header is a map with a
duration) on which `Write` does not fail, that is, whose duration is a string
that `time.ParseDuration` accepts once `s` is appended, whose Client header is
present, whose tracer is not nil and whose top-level Message values are all maps.
If its header map has no key named `client`, then `Write` produces a span whose
operation name is the record's CommandType and whose tag `client` is the IP
address of the record's Client header, whatever the order in which the maps are
iterated. -/
theorem writePart_operation_and_client (range : GoMap → List (Str × Value))
    (parseDuration : Str → Option Int) (ls : LightStep) (atl : AtlasLog)
    (resp : AtlasReqResp) (header : GoMap) (ds : Str) (d : Int) (tracer : Nat)
    (client : AtlasClientHeader)
    (hrange : ∀ m, (range m).Perm m)
    (hunp : atl.Command.Unparsed = [])
    (hresp : atl.Command.Response = some resp)
    (hnd : (resp.Message.map Prod.fst).Nodup)
    (hheader : mapGet resp.Message "header".toList = some (Value.obj header))
    (hdur : mapGet header "duration".toList = some (Value.str ds))
    (hpd : parseDuration (ds ++ ['s']) = some d)
    (htracer : (getOrMakeTracer ls atl.Hostname "atlas".toList).2 = some tracer)
    (hclient : resp.Client = some client)
    (hmaps : ∀ kv ∈ resp.Message, ∃ m, kv.2 = Value.obj m)
    (hfree : mapGet header "client".toList = none) :
    ∃ ls' span, writePart range parseDuration ls atl = Res.ok ls' ∧
      ls'.spans = ls.spans ++ [span] ∧
      span.operationName = atl.CommandType ∧
      mapGet span.tags "client".toList = some (Value.str client.IP) := by
  obtain ⟨ls', hok⟩ := writePart_eligible_produces range parseDuration ls atl resp header ds d
    tracer client hrange hunp hresp hheader hdur hpd htracer hclient hmaps
  obtain ⟨ds', d', tracer', client', tags, -, -, -, hcl', htags, hls⟩ :=
    writePart_eligible_ok range parseDuration ls ls' atl resp header (Value.str ds) hunp
      hresp hheader hdur (fun h => Value.noConfusion h) hok
  have hce : client = client' := Option.some.inj (hclient.symm.trans hcl')
  subst hce
  have hes : ((range resp.Message).map Prod.fst).Nodup :=
    ((hrange resp.Message).map Prod.fst).nodup_iff.2 hnd
  have hmem : ("header".toList, Value.obj header) ∈ range resp.Message :=
    (hrange resp.Message).mem_iff.2 (mem_of_mapGet _ _ _ hheader)
  refine ⟨ls', _, hok, hls, rfl, ?_⟩
  have hF : ∀ tg, mapGet (headerTags (range header) tg) "client".toList =
      id (mapGet tg "client".toList) := by
    intro tg
    refine headerTags_untouched _ _ tg (fun kv hkv hname => ?_)
    rcases headerTagName_cases hname with ⟨_, hk⟩ | ⟨_, hk⟩ | hk
    · exact absurd hk (by decide)
    · exact absurd hk (by decide)
    · exact not_mem_keys_of_mapGet_none _ _ hfree kv.2
        (by rw [← hk]; exact (hrange header).mem_iff.1 hkv)
  rw [messageTags_header range _ (by decide) header id hF _ _ _ hes hmem htags]
  exact mapGet_mapSet_self _ _ _

theorem writePart_operation_and_client_witness :
    ∃ (ls' : LightStep) (span : Span),
      writePart id (fun _ => some 1) {}
        { CommandType := "response".toList,
          Hostname := "host".toList,
          Command := { Response := some {
            LogTime := [],
            Client := some { Message := 1, IP := "10.0.0.1".toList, Port := 2, Socket := 3 },
            LengthHex := [],
            Message := [("header".toList, Value.obj
              [("duration".toList, Value.str "1".toList)])] } } } = Res.ok ls' ∧
      ls'.spans = [span] ∧
      span.operationName = "response".toList ∧
      mapGet span.tags "client".toList = some (Value.str "10.0.0.1".toList) :=
  writePart_operation_and_client id (fun _ => some 1) {}
    { CommandType := "response".toList,
      Hostname := "host".toList,
      Command := { Response := some {
        LogTime := [],
        Client := some { Message := 1, IP := "10.0.0.1".toList, Port := 2, Socket := 3 },
        LengthHex := [],
        Message := [("header".toList, Value.obj
          [("duration".toList, Value.str "1".toList)])] } } }
    { LogTime := [],
      Client := some { Message := 1, IP := "10.0.0.1".toList, Port := 2, Socket := 3 },
      LengthHex := [],
      Message := [("header".toList, Value.obj
        [("duration".toList, Value.str "1".toList)])] }
    [("duration".toList, Value.str "1".toList)]
    "1".toList 1 0
    { Message := 1, IP := "10.0.0.1".toList, Port := 2, Socket := 3 }
    (fun m => List.Perm.refl m) rfl rfl (by decide) rfl rfl rfl rfl rfl
    (fun kv hkv => by
      simp only [List.mem_singleton] at hkv
      subst hkv
      exact ⟨_, rfl⟩)
    rfl

/-! ## Tags from the other maps of the message -/

/-- C18: on a record whose Message is the map of its sub-maps, `Write` sets the
tag `K.S` for the string and number values of a sub-map and none for its other
values; but when a top-level value other than the header is not a map (here the
list under `items`, then the string under `status`), the type assertion on it
fails and `Write` stops with a run-time panic. -/
theorem writePart_non_map_value_panics :
    writePart id (fun _ => some 1) {}
      { CommandType := "response".toList,
        Hostname := "host".toList,
        Command := { Response := some {
          LogTime := [],
          Client := some { Message := 1, IP := "10.0.0.1".toList, Port := 2, Socket := 3 },
          LengthHex := [],
          Message := [("header".toList, Value.obj [("duration".toList, Value.str "1".toList)]),
                      ("command1".toList, Value.obj
                        [("a".toList, Value.str "b".toList),
                         ("n".toList, Value.float 5),
                         ("o".toList, Value.obj []),
                         ("l".toList, Value.arr []),
                         ("z".toList, Value.null)])] } } } =
      Res.ok
        { tracers := [("host:atlas".toList, some 0)],
          created := 1,
          spans := [{ tracer := 0, operationName := "response".toList, startTime := 0,
                      finishTime := 1,
                      tags := [("client".toList, Value.str "10.0.0.1".toList),
                               ("command1.a".toList, Value.str "b".toList),
                               ("command1.n".toList, Value.float 5)] }] } ∧
    writePart id (fun _ => some 1) {}
      { CommandType := "response".toList,
        Hostname := "host".toList,
        Command := { Response := some {
          LogTime := [],
          Client := some { Message := 1, IP := "10.0.0.1".toList, Port := 2, Socket := 3 },
          LengthHex := [],
          Message := [("header".toList, Value.obj [("duration".toList, Value.str "1".toList)]),
                      ("items".toList, Value.arr [Value.float 1, Value.float 2])] } } } =
      Res.panic ∧
    writePart id (fun _ => some 1) {}
      { CommandType := "response".toList,
        Hostname := "host".toList,
        Command := { Response := some {
          LogTime := [],
          Client := some { Message := 1, IP := "10.0.0.1".toList, Port := 2, Socket := 3 },
          LengthHex := [],
          Message := [("header".toList, Value.obj [("duration".toList, Value.str "1".toList)]),
                      ("status".toList, Value.str "ok".toList)] } } } =
      Res.panic := by
  exact ⟨rfl, rfl, rfl⟩

/-! ## What `unwrap` returns -/

/-- C14: with a JSON library that decodes the wrapper around the fragment `5` to
the `Data` string `5`, and the text `5` to the number 5, `unwrap` returns on the
fragment `5` the bare number 5 and no error; `parseError`, which asserts that the
value is a map, then stops with a run-time panic on a payload with that
fragment. -/
theorem unwrap_returns_number (J : Json)
    (hw : J.unmarshalWrapper "\x7b\"data\":\"5\"\x7d".toList = some "5".toList)
    (hv : J.unmarshalValue "5".toList = some (Value.float 5)) :
    unwrap J "5".toList = Res.ok (Value.float 5) ∧
    parseError J "error,13:42:56.960,0000016A|5".toList = Res.panic := by
  have hr : rewrite "5".toList = "5".toList := by decide
  have hj : jsonPath J "5".toList = some (Value.float 5) := by
    unfold jsonPath
    have : "\x7b\"data\":\"".toList ++ "5".toList ++ "\"\x7d".toList =
        "\x7b\"data\":\"5\"\x7d".toList := by decide
    rw [this, hw]
    exact hv
  have hu : unwrap J "5".toList = Res.ok (Value.float 5) := by
    unfold unwrap
    rw [hr, hj]
  refine ⟨hu, ?_⟩
  have hs : Split "error,13:42:56.960,0000016A|5".toList ['|'] =
      ["error,13:42:56.960,0000016A".toList, "5".toList] := by decide
  have hh : Split "error,13:42:56.960,0000016A".toList [','] =
      ["error".toList, "13:42:56.960".toList, "0000016A".toList] := by decide
  unfold parseError
  rw [hs]
  have i0 : index ["error,13:42:56.960,0000016A".toList, "5".toList] 0 =
      Res.ok "error,13:42:56.960,0000016A".toList := rfl
  simp only [i0, Res.bind_ok, hh]
  have hloop : parseErrorLoop J (List.drop 1 ["error,13:42:56.960,0000016A".toList, "5".toList]) [] =
      Res.panic := by
    show parseErrorLoop J ["5".toList] [] = Res.panic
    rw [parseErrorLoop, hu]
    rfl
  rw [hloop]
  rfl

theorem unwrap_returns_number_witness :
    unwrap fiveJson "5".toList = Res.ok (Value.float 5) ∧
    parseError fiveJson "error,13:42:56.960,0000016A|5".toList = Res.panic :=
  unwrap_returns_number fiveJson rfl rfl

/-! ## Shape of the records that `parse` emits -/

theorem head?_of_HasPrefix {s pre : Str} {c : Char} (h : HasPrefix s (c :: pre) = true) :
    s.head? = some c := by
  cases s with
  | nil => simp [HasPrefix, List.isPrefixOf] at h
  | cons x t =>
    simp only [HasPrefix, List.isPrefixOf, Bool.and_eq_true, beq_iff_eq] at h
    simp [h.1]

theorem head?_headD_Split (sep : Str) (c0 : Char) (sep' : Str) (hsep : sep = c0 :: sep')
    (s : Str) (c : Char) (hs : s.head? = some c) (hc : c ≠ c0) :
    ((Split s sep).headD []).head? = some c := by
  cases s with
  | nil => simp at hs
  | cons x t =>
    simp only [List.head?_cons, Option.some.injEq] at hs
    subst hs hsep
    have hp : (c0 :: sep').isPrefixOf (x :: t) = false := by
      simp [List.isPrefixOf, Ne.symm hc]
    unfold Split
    rw [splitAux]
    simp only [hp, Bool.false_eq_true, if_false]
    rw [headD_consHead]
    rfl

theorem field_zero (xs : List Str) : field xs 0 = xs.headD [] := by
  cases xs <;> rfl

theorem eq_headD_of_index_zero {xs : List Str} {h0 : Str} (h : index xs 0 = Res.ok h0) :
    h0 = xs.headD [] := by
  cases xs with
  | nil => simp [index] at h
  | cons a t =>
    simp only [index, List.getElem?_cons_zero, Res.ok.injEq] at h
    rw [← h]
    rfl

theorem ne_nil_of_head? {s : Str} {c : Char} (h : s.head? = some c) : s ≠ [] := by
  intro e
  rw [e] at h
  simp at h

theorem parseUnparsed_shape (payload : Str) (hne : payload ≠ []) :
    populated (parseUnparsed payload).Command = 1 ∧
    (payload.head? ≠ some ',' → (parseUnparsed payload).CommandType ≠ []) := by
  constructor
  · simp [parseUnparsed, populated, hne]
  · intro hc
    cases payload with
    | nil => exact absurd rfl hne
    | cons x t =>
      have hx : x ≠ ',' := fun e => hc (by simp [e])
      have hb : (x != ',') = true := by simpa using hx
      simp only [parseUnparsed]
      rw [headD_Split_single, List.takeWhile, hb]
      simp

theorem parseResponse_shape (J : Json) (payload : Str) (l : AtlasLog) (c : Char)
    (hhead : payload.head? = some c) (h1 : c ≠ '|') (h2 : c ≠ ',')
    (hok : parseResponse J payload = Res.ok l) :
    populated l.Command = 1 ∧ l.CommandType ≠ [] := by
  unfold parseResponse at hok
  have hh : ((Split ((Split payload ['|']).headD []) [',']).headD []).head? = some c :=
    head?_headD_Split [','] ',' [] rfl _ c
      (head?_headD_Split ['|'] '|' [] rfl payload c hhead h1) h2
  generalize Split payload ['|'] = parts at hok hh
  by_cases hp : parts.length < 2
  · simp [hp] at hok
  simp only [hp, if_false, Res.bind_eq_ok] at hok
  obtain ⟨p0, hp0, f2, -, cl, -, f1, -, f3, -, h0, hh0, p1, -, b, -, message, -, hr⟩ := hok
  have e0 := eq_headD_of_index_zero hp0
  subst e0
  have e1 := eq_headD_of_index_zero hh0
  subst e1
  cases hr
  constructor
  · by_cases hreq : (Split (parts.headD []) [',']).headD [] = "request".toList
    · simp only [if_pos hreq]
      rfl
    · simp only [if_neg hreq]
      rfl
  · exact ne_nil_of_head? hh

theorem parseError_shape (J : Json) (payload : Str) (l : AtlasLog) (c : Char)
    (hhead : payload.head? = some c) (h1 : c ≠ '|') (h2 : c ≠ ',')
    (hok : parseError J payload = Res.ok l) :
    populated l.Command = 1 ∧ l.CommandType ≠ [] := by
  unfold parseError at hok
  have hh : ((Split ((Split payload ['|']).headD []) [',']).headD []).head? = some c :=
    head?_headD_Split [','] ',' [] rfl _ c
      (head?_headD_Split ['|'] '|' [] rfl payload c hhead h1) h2
  generalize Split payload ['|'] = parts at hok hh
  by_cases hp : parts.length < 2
  · simp [hp] at hok
  simp only [hp, if_false, Res.bind_eq_ok] at hok
  obtain ⟨p0, hp0, hok⟩ := hok
  have e0 := eq_headD_of_index_zero hp0
  subst e0
  generalize Split (parts.headD []) [','] = hdr at hok hh
  by_cases hl : hdr.length ≠ 3
  · rw [if_pos hl] at hok
    exact absurd hok (by simp)
  simp only [hl, if_false, Res.bind_eq_ok] at hok
  obtain ⟨h0, hh0, f1, -, f2, -, message, -, hr⟩ := hok
  have e1 := eq_headD_of_index_zero hh0
  subst e1
  cases hr
  exact ⟨rfl, ne_nil_of_head? hh⟩

theorem parseOpuse_shape (payload : Str) (l : AtlasLog)
    (hhead : payload.head? = some 'o')
    (hok : parseOpuse payload = Res.ok l) :
    populated l.Command = 1 ∧ l.CommandType ≠ [] := by
  obtain ⟨_, _, _, p, uc, qc, up, qp, ut, qt, mn, mx, idl, -, -, -, -, -, -, -, -, -, -, hr⟩ :=
    ((parseOpuse_iff payload l).1).1 hok
  subst hr
  refine ⟨rfl, ?_⟩
  simp only [opuseHeader, field_zero]
  exact ne_nil_of_head? (head?_headD_Split [','] ',' [] rfl _ 'o'
    (head?_headD_Split ['\\', 't'] '\\' ['t'] rfl payload 'o' hhead (by decide)) (by decide))

theorem parseHostload_shape (payload : Str) (l : AtlasLog)
    (hok : parseHostload payload = Res.ok l) :
    populated l.Command = 1 ∧ l.CommandType ≠ [] := by
  unfold parseHostload at hok
  generalize Split payload [','] = parts at hok
  by_cases hl : parts.length ≠ 6
  · simp [hl] at hok
  simp only [hl, if_false, Res.bind_eq_ok] at hok
  obtain ⟨p1, -, p2, -, p3, -, load, -, p4, -, p5, -, flags, -, hr⟩ := hok
  cases hr
  exact ⟨rfl, by simp⟩

theorem dispatch_shape (J : Json) (payload : Str) (l : AtlasLog) (hne : payload ≠ [])
    (hok : dispatch J payload = Res.ok l) :
    populated l.Command = 1 ∧ (payload.head? ≠ some ',' → l.CommandType ≠ []) := by
  unfold dispatch at hok
  by_cases c1 : HasPrefix payload "response,".toList = true
  · rw [if_pos c1] at hok
    have := parseResponse_shape J payload l 'r' (head?_of_HasPrefix c1) (by decide)
      (by decide) hok
    exact ⟨this.1, fun _ => this.2⟩
  rw [if_neg c1] at hok
  by_cases c2 : HasPrefix payload "request,".toList = true
  · rw [if_pos c2] at hok
    have := parseResponse_shape J payload l 'r' (head?_of_HasPrefix c2) (by decide)
      (by decide) hok
    exact ⟨this.1, fun _ => this.2⟩
  rw [if_neg c2] at hok
  by_cases c3 : HasPrefix payload "error,".toList = true
  · rw [if_pos c3] at hok
    have := parseError_shape J payload l 'e' (head?_of_HasPrefix c3) (by decide)
      (by decide) hok
    exact ⟨this.1, fun _ => this.2⟩
  rw [if_neg c3] at hok
  by_cases c4 : HasPrefix payload "opuse,".toList = true
  · rw [if_pos c4] at hok
    have := parseOpuse_shape payload l (head?_of_HasPrefix c4) hok
    exact ⟨this.1, fun _ => this.2⟩
  rw [if_neg c4] at hok
  by_cases c5 : HasPrefix payload "hostload,".toList = true
  · rw [if_pos c5] at hok
    have := parseHostload_shape payload l hok
    exact ⟨this.1, fun _ => this.2⟩
  rw [if_neg c5] at hok
  cases hok
  exact parseUnparsed_shape payload hne

/-- C13, as stated: on a line whose payload is empty `parse` emits a record with
an empty CommandType and no populated variant; on a line whose payload begins
with a comma it emits an Unparsed record with an empty CommandType. -/
theorem parse_empty_command_type :
    (parse noJson (fun _ => some 0) "Aug 22 15:18:32 host atlas: ".toList =
        Res.ok { CommandType := [], Hostname := "host".toList, Timestamp := 0,
                 Command := { Unparsed := [] } } ∧
      populated { Unparsed := [] } = 0) ∧
    parse noJson (fun _ => some 0) "Aug 22 15:18:32 host atlas: ,x".toList =
      Res.ok { CommandType := [], Hostname := "host".toList, Timestamp := 0,
               Command := { Unparsed := ",x".toList } } := by
  exact ⟨⟨rfl, rfl⟩, rfl⟩

/-- C13, amended: every record that `parse` emits for a non-empty payload has
exactly one populated variant among Unparsed, Request, Response, Error, Opuse and
Hostload, and, when the payload does not begin with a comma, a non-empty
CommandType. -/
theorem parse_record_shape (J : Json) (parseTime : Str → Option Time)
    (msg host label payload : Str) (r : AtlasLog)
    (hsplit : SplitN (msg.drop 16) [' '] 3 = [host, label, payload])
    (hne : payload ≠ [])
    (hok : parse J parseTime msg = Res.ok r) :
    populated r.Command = 1 ∧ (payload.head? ≠ some ',' → r.CommandType ≠ []) := by
  unfold parse at hok
  by_cases hl : msg.length < 16
  · rw [if_pos hl] at hok
    exact absurd hok (by simp)
  rw [if_neg hl] at hok
  simp only [hsplit, Res.bind_eq_ok] at hok
  obtain ⟨l, hl', hts⟩ := hok
  have hshape : populated l.Command = 1 ∧ (payload.head? ≠ some ',' → l.CommandType ≠ []) := by
    cases hd : dispatch J payload with
    | ok l0 =>
      rw [hd] at hl'
      simp only [Res.ok.injEq] at hl'
      subst hl'
      exact dispatch_shape J payload l0 hne hd
    | err =>
      rw [hd] at hl'
      simp only [Res.ok.injEq] at hl'
      subst hl'
      exact parseUnparsed_shape payload hne
    | panic =>
      rw [hd] at hl'
      exact absurd hl' (by simp)
  cases ht : parseTime (msg.take 15) with
  | none =>
    rw [ht] at hts
    exact absurd hts (by simp)
  | some ts =>
    rw [ht] at hts
    simp only [Res.ok.injEq] at hts
    subst hts
    exact hshape

theorem parse_record_shape_witness :
    populated
        { Hostload := some { LogTime := "13:24:05.630".toList, Vax := "ARZ".toList,
                             Load := 0, VaxTime := "13:24:04".toList, Flags := 29 } } = 1 ∧
    "hostload".toList ≠ [] := by
  have h := parse_record_shape noJson (fun _ => some 7)
    "Aug 22 15:18:32 host atlas: hostload,13:24:05.630,ARZ,0,13:24:04,29".toList
    "host".toList "atlas:".toList "hostload,13:24:05.630,ARZ,0,13:24:04,29".toList
    { CommandType := "hostload".toList,
      Hostname := "host".toList,
      Timestamp := 7,
      Command := { Hostload := some {
        LogTime := "13:24:05.630".toList, Vax := "ARZ".toList, Load := 0,
        VaxTime := "13:24:04".toList, Flags := 29 } } }
    (by decide) (by decide) rfl
  exact ⟨h.1, h.2 (by decide)⟩

/-! ## Parts of a processed message -/

theorem getD_set_nil (l : List Str) (j i : Nat) (a : Str) (hj : j < l.length) :
    (l.set j a).getD i [] = if i = j then a else l.getD i [] := by
  simp only [List.getD_eq_getElem?_getD, List.getElem?_set]
  by_cases h : i = j
  · subst h
    simp [hj]
  · have h' : ¬ j = i := fun e => h e.symm
    simp [h, h']

theorem stripPart_of_three_le (part : Str) (h : 3 ≤ part.length) :
    stripPart part =
      Res.ok (if ((part.drop 1).dropLast).getLast? = some ';'
        then ((part.drop 1).dropLast).dropLast else (part.drop 1).dropLast) := by
  have hlen : ¬ part.length < 2 := by omega
  have htake : (part.drop 1).take (part.length - 2) = (part.drop 1).dropLast := by
    rw [List.dropLast_eq_take]
    simp only [List.length_drop]
    rfl
  unfold stripPart
  rw [if_neg hlen]
  simp only [htake]
  have hne : (part.drop 1).dropLast ≠ [] := by
    intro e
    have := congrArg List.length e
    simp only [List.length_dropLast, List.length_drop, List.length_nil] at this
    omega
  cases hg : ((part.drop 1).dropLast).getLast? with
  | none => exact absurd (List.getLast?_eq_none_iff.1 hg) hne
  | some c =>
    by_cases hc : c = ';'
    · subst hc
      simp
    · have : ¬ some c = some ';' := fun e => hc (Option.some.inj e)
      simp [hc, this]

theorem expectedPart_null (J : Json) (marshal : AtlasLog → Option Str)
    (parseTime : Str → Option Time) (part : Str) (h : part = "null".toList) :
    expectedPart J marshal parseTime part = part := by
  unfold expectedPart
  rw [if_pos h]

theorem processLoop_spec (J : Json) (marshal : AtlasLog → Option Str)
    (parseTime : Str → Option Time) (msg : List Str) :
    ∀ (idxs : List Nat) (newMsg : List Str),
    newMsg.length = msg.length →
    (∀ i, newMsg.getD i [] = msg.getD i [] ∨
      newMsg.getD i [] = expectedPart J marshal parseTime (msg.getD i [])) →
    (∀ j ∈ idxs, j < msg.length ∧
      (msg.getD j [] = "null".toList ∨
        (3 ≤ (msg.getD j []).length ∧
          (stripPart (msg.getD j [])).bind (parseBytes J marshal parseTime) ≠ Res.panic))) →
    ∃ out, processLoop J marshal parseTime msg idxs newMsg = Res.ok out ∧
      out.length = msg.length ∧
      ∀ i, out.getD i [] =
        if i ∈ idxs then expectedPart J marshal parseTime (msg.getD i [])
        else newMsg.getD i [] := by
  intro idxs
  induction idxs with
  | nil =>
    intro newMsg hlen _ _
    exact ⟨newMsg, rfl, hlen, fun i => by simp⟩
  | cons j rest ih =>
    intro newMsg hlen hinv hidx
    have hrest : ∀ j' ∈ rest, j' < msg.length ∧
        (msg.getD j' [] = "null".toList ∨
          (3 ≤ (msg.getD j' []).length ∧
            (stripPart (msg.getD j' [])).bind (parseBytes J marshal parseTime) ≠ Res.panic)) :=
      fun j' hj' => hidx j' (List.mem_cons_of_mem _ hj')
    obtain ⟨hj, hpart⟩ := hidx j (by simp)
    -- the case in which the part is left as it is
    have keep : expectedPart J marshal parseTime (msg.getD j []) = msg.getD j [] →
        processLoop J marshal parseTime msg (j :: rest) newMsg =
          processLoop J marshal parseTime msg rest newMsg →
        ∃ out, processLoop J marshal parseTime msg (j :: rest) newMsg = Res.ok out ∧
          out.length = msg.length ∧
          ∀ i, out.getD i [] =
            if i ∈ j :: rest then expectedPart J marshal parseTime (msg.getD i [])
            else newMsg.getD i [] := by
      intro hE hstep
      obtain ⟨out, hout, hol, hget⟩ := ih newMsg hlen hinv hrest
      refine ⟨out, by rw [hstep, hout], hol, fun i => ?_⟩
      rw [hget i]
      by_cases hi : i = j
      · subst hi
        by_cases hir : i ∈ rest
        · rw [if_pos hir, if_pos (List.mem_cons_self _ _)]
        · rw [if_neg hir, if_pos (List.mem_cons_self _ _)]
          rcases hinv i with h | h
          · rw [h, hE]
          · exact h
      · by_cases hir : i ∈ rest
        · rw [if_pos hir, if_pos (List.mem_cons_of_mem _ hir)]
        · have hnot : i ∉ j :: rest := fun h => by
            rcases List.mem_cons.1 h with h | h
            · exact hi h
            · exact hir h
          rw [if_neg hir, if_neg hnot]
    by_cases hnull : msg.getD j [] = "null".toList
    · refine keep (expectedPart_null J marshal parseTime _ hnull) ?_
      rw [processLoop]
      simp only [hnull, if_true]
    · rcases hpart with hpart | ⟨h3, hnp⟩
      · exact absurd hpart hnull
      · have hs := stripPart_of_three_le (msg.getD j []) h3
        generalize (if ((msg.getD j []).drop 1).dropLast.getLast? = some ';'
          then (((msg.getD j []).drop 1).dropLast).dropLast
          else ((msg.getD j []).drop 1).dropLast) = stripped at hs
        rw [hs, Res.bind_ok] at hnp
        have hstepdef : processLoop J marshal parseTime msg (j :: rest) newMsg =
            match parseBytes J marshal parseTime stripped with
            | Res.ok newPart =>
              processLoop J marshal parseTime msg rest (newMsg.set j newPart)
            | Res.err => processLoop J marshal parseTime msg rest newMsg
            | Res.panic => Res.panic := by
          rw [processLoop]
          simp only [hnull, if_false, hs, Res.bind_ok]
        have hEdef : expectedPart J marshal parseTime (msg.getD j []) =
            match parseBytes J marshal parseTime stripped with
            | Res.ok newPart => newPart
            | _ => msg.getD j [] := by
          unfold expectedPart
          rw [if_neg hnull, hs, Res.bind_ok]
        cases hp : parseBytes J marshal parseTime stripped with
        | panic => exact absurd hp hnp
        | err =>
          rw [hp] at hstepdef hEdef
          exact keep hEdef hstepdef
        | ok newPart =>
          rw [hp] at hstepdef hEdef
          simp only at hstepdef hEdef
          have hj' : j < newMsg.length := by omega
          obtain ⟨out, hout, hol, hget⟩ := ih (newMsg.set j newPart)
            (by simp [hlen])
            (fun i => by
              rw [getD_set_nil _ _ _ _ hj']
              by_cases hi : i = j
              · subst hi
                right
                rw [if_pos rfl, hEdef]
              · rw [if_neg hi]
                exact hinv i)
            hrest
          refine ⟨out, by rw [hstepdef, hout], hol, fun i => ?_⟩
          rw [hget i, getD_set_nil _ _ _ _ hj']
          by_cases hi : i = j
          · subst hi
            by_cases hir : i ∈ rest
            · rw [if_pos hir, if_pos (List.mem_cons_self _ _)]
            · rw [if_neg hir, if_pos rfl, if_pos (List.mem_cons_self _ _), hEdef]
          · by_cases hir : i ∈ rest
            · rw [if_pos hir, if_pos (List.mem_cons_of_mem _ hir)]
            · have hnot : i ∉ j :: rest := fun h => by
                rcases List.mem_cons.1 h with h | h
                · exact hi h
                · exact hir h
              rw [if_neg hir, if_neg hi, if_neg hnot]

/-- C20, as stated: a message without parts satisfies the condition on the parts,
yet `ProcessMessage` returns no message for it (the result `nil` with an
acknowledgement); and on the message whose only part is the 5 bytes `"abc"`,
`parse` slices the first 15 bytes of a 3-byte line and `ProcessMessage` stops
with a run-time panic. -/
theorem ProcessMessage_claim_fails :
    ProcessMessage noJson (fun r => some r.CommandType) (fun _ => some 0) [] [] =
      Res.ok none ∧
    ProcessMessage noJson (fun r => some r.CommandType) (fun _ => some 0) []
      ["\"abc\"".toList] = Res.panic := by
  exact ⟨rfl, rfl⟩

/-- C20, amended: with an empty `parts` configuration, on a message that has at
least one part and in which every part is either `null` or at least 3 bytes long
and such that `parse` does not stop with a run-time panic on the stripped part,
`ProcessMessage` returns one message with the same number of parts, in which every
part equal to `null` and every part on which `parse` returns an error is
unchanged and every other part is replaced by the output of `parse` on the
stripped part; the stripped part is the part without its first and last byte and
then without one trailing `;` if there is one. -/
theorem ProcessMessage_parts (J : Json) (marshal : AtlasLog → Option Str)
    (parseTime : Str → Option Time) (msg : List Str)
    (hne : msg ≠ [])
    (hparts : ∀ part ∈ msg, part = "null".toList ∨
      (3 ≤ part.length ∧
        (stripPart part).bind (parseBytes J marshal parseTime) ≠ Res.panic)) :
    ProcessMessage J marshal parseTime [] msg =
      Res.ok (some (msg.map (expectedPart J marshal parseTime))) ∧
    (msg.map (expectedPart J marshal parseTime)).length = msg.length ∧
    ∀ part : Str, 3 ≤ part.length →
      stripPart part =
        Res.ok (if ((part.drop 1).dropLast).getLast? = some ';'
          then ((part.drop 1).dropLast).dropLast else (part.drop 1).dropLast) := by
  refine ⟨?_, by simp, stripPart_of_three_le⟩
  obtain ⟨out, hout, hol, hget⟩ := processLoop_spec J marshal parseTime msg
    (List.range msg.length) msg rfl (fun i => Or.inl rfl)
    (fun j hj => by
      have hj' : j < msg.length := List.mem_range.1 hj
      refine ⟨hj', hparts _ ?_⟩
      rw [List.getD_eq_getElem _ _ hj']
      exact List.getElem_mem _)
  have hmap : out = msg.map (expectedPart J marshal parseTime) := by
    apply List.ext_getElem (by simp [hol])
    intro i h1 h2
    have hi : i < msg.length := by omega
    have := hget i
    rw [if_pos (List.mem_range.2 hi), List.getD_eq_getElem _ _ h1,
      List.getD_eq_getElem _ _ hi] at this
    rw [this, List.getElem_map]
  have hlen0 : ¬ out.length = 0 := by
    rw [hol]
    intro e
    exact hne (List.length_eq_zero.1 e)
  unfold ProcessMessage
  simp only [if_true, hout, Res.bind_ok]
  rw [if_neg hlen0, hmap]

theorem ProcessMessage_parts_witness :
    ProcessMessage noJson (fun r => some r.CommandType) (fun _ => some 0) []
        ["null".toList, "\"Aug 22 15:18:32 host atlas: syncwait.*;\"".toList,
         "\"Aug 22 15:18:32 hostatlas:syncwait.*;\"".toList] =
      Res.ok (some ["null".toList, "syncwait.*".toList,
        "\"Aug 22 15:18:32 hostatlas:syncwait.*;\"".toList]) :=
  (ProcessMessage_parts noJson (fun r => some r.CommandType) (fun _ => some 0)
    ["null".toList, "\"Aug 22 15:18:32 host atlas: syncwait.*;\"".toList,
     "\"Aug 22 15:18:32 hostatlas:syncwait.*;\"".toList]
    (by decide) (by decide)).1

end Atlas
